import Mathlib

/-!
# SPARC node scheduling (`ir/be/beschedsparc.c`)

A shallow embedding of the SPARC list-scheduling selector of libFirm and of
its three pipeline-hazard checks, together with properties of the selector,
the hazard checks and the per-block driver.

Conventions of the embedding:

* an `ir_node *` is an address (`Nat`); a nullable pointer is an `Option Nat`;
* the IR graph is a heap `ir_graph.node : Nat → ir_node` together with the
  accessors of the IR library that the scheduler calls (`get_irn_in`,
  `get_Block_n_cfg_outs`, `get_Block_cfg_out`);
* an `ir_nodeset_t` is the list of its members in iteration order;
* the three file-level variables `last_load`, `last_icci`, `last_muldiv` are
  the fields of an explicit `HazardState`;
* `assert` is taken to be enabled, a failing assertion is `SchedError.assertion`;
* reading past the end of an operand array is `SchedError.out_of_bounds`;
* the list-scheduling engine is a parameter (`list_sched`, `be_list_sched`), the
  `while` loop of `sched_block` is a step function iterated `fuel` times, and the
  block walk of `sched_sparc` is the list of blocks in visiting order.
-/

namespace BeSchedSparc

/-! ## The IR as the scheduler sees it -/

/-- Opcodes the scheduler distinguishes; every other opcode is `other k`. -/
inductive ir_op where
  | sparc_Ld
  | sparc_St
  | sparc_Cmp
  | sparc_Bicc
  | sparc_SMul
  | sparc_SMulCCZero
  | sparc_SMulh
  | sparc_UMulh
  | sparc_SDiv
  | sparc_UDiv
  | Proj
  | Block
  | other (k : Nat)
  deriving DecidableEq, Repr

/-- An IR node: its opcode and its operand array (`get_irn_in`). For a block
the operand array holds the incoming control-flow edges. -/
structure ir_node where
  op : ir_op
  ins : List Nat
  deriving DecidableEq, Repr

/-- The IR graph: the node stored at each address, the block every node
belongs to (`get_nodes_block`) and, for blocks, the control-flow successor
blocks in the order of `get_Block_cfg_out`. -/
structure ir_graph where
  node : Nat → ir_node
  nodes_block : Nat → Nat
  cfg_outs : Nat → List Nat

/-- Operand array of the node at address `n`. -/
def get_irn_in (g : ir_graph) (n : Nat) : List Nat := (g.node n).ins

/-- Number of operands of the node at address `n`. -/
def get_irn_arity (g : ir_graph) (n : Nat) : Nat := (get_irn_in g n).length

/-- Number of control-flow successors of a block. -/
def get_Block_n_cfg_outs (g : ir_graph) (block : Nat) : Nat := (g.cfg_outs block).length

/-- The `pos`-th control-flow successor of a block (`NULL` when there is none). -/
def get_Block_cfg_out (g : ir_graph) (block pos : Nat) : Option Nat := (g.cfg_outs block)[pos]?

def is_sparc_Ld (g : ir_graph) (n : Nat) : Bool := (g.node n).op == ir_op.sparc_Ld
def is_sparc_St (g : ir_graph) (n : Nat) : Bool := (g.node n).op == ir_op.sparc_St
def is_sparc_Cmp (g : ir_graph) (n : Nat) : Bool := (g.node n).op == ir_op.sparc_Cmp
def is_sparc_Bicc (g : ir_graph) (n : Nat) : Bool := (g.node n).op == ir_op.sparc_Bicc
def is_sparc_SMul (g : ir_graph) (n : Nat) : Bool := (g.node n).op == ir_op.sparc_SMul
def is_sparc_SMulCCZero (g : ir_graph) (n : Nat) : Bool := (g.node n).op == ir_op.sparc_SMulCCZero
def is_sparc_SMulh (g : ir_graph) (n : Nat) : Bool := (g.node n).op == ir_op.sparc_SMulh
def is_sparc_UMulh (g : ir_graph) (n : Nat) : Bool := (g.node n).op == ir_op.sparc_UMulh
def is_sparc_SDiv (g : ir_graph) (n : Nat) : Bool := (g.node n).op == ir_op.sparc_SDiv
def is_sparc_UDiv (g : ir_graph) (n : Nat) : Bool := (g.node n).op == ir_op.sparc_UDiv
def is_Proj (g : ir_graph) (n : Nat) : Bool := (g.node n).op == ir_op.Proj

/-! ## Hazard state and the three checks -/

/-- The file-level variables `last_load`, `last_icci`, `last_muldiv`. -/
structure HazardState where
  last_load : Option Nat
  last_icci : Option Nat
  last_muldiv : Option Nat
  deriving DecidableEq, Repr

/-- Initial values of the three variables (all `NULL`). -/
def HazardState.init : HazardState :=
  { last_load := none, last_icci := none, last_muldiv := none }

/-- Inner loop of `check_delay_load`: `foreach_irn_in(pred, j, pred2)` with the
early `return 1` when `pred2 == last_load`. -/
def check_delay_load_inner (last_load : Nat) : List Nat → Bool
  | [] => false
  | pred2 :: rest =>
    if pred2 == last_load then true else check_delay_load_inner last_load rest

/-- Outer loop of `check_delay_load`, from operand index `i` on, over the
remaining operands. -/
def check_delay_load_loop (g : ir_graph) (last_load node : Nat) : Nat → List Nat → Bool
  | _, [] => false
  | i, pred :: rest =>
    if i == 0 && is_sparc_St g node then
      check_delay_load_loop g last_load node (i + 1) rest
    else if pred == last_load then
      true
    else if !is_Proj g pred then
      check_delay_load_loop g last_load node (i + 1) rest
    else if check_delay_load_inner last_load (get_irn_in g pred) then
      true
    else
      check_delay_load_loop g last_load node (i + 1) rest

/-- Load-delay check `check_delay_load(node)`. -/
def check_delay_load (g : ir_graph) (st : HazardState) (node : Nat) : Bool :=
  match st.last_load with
  | none => false
  | some l => check_delay_load_loop g l node 0 (get_irn_in g node)

/-- Branch check `check_branch(node)`: `node == last_icci`. -/
def check_branch (st : HazardState) (node : Nat) : Bool :=
  if some node = st.last_icci then true else false

/-- Loop of `check_delay_muldiv`, from operand index `i` on. -/
def check_delay_muldiv_loop (g : ir_graph) (last_muldiv node : Nat) : Nat → List Nat → Bool
  | _, [] => false
  | i, pred :: rest =>
    if pred == last_muldiv then
      if i == 0 && is_sparc_St g node then
        check_delay_muldiv_loop g last_muldiv node (i + 1) rest
      else
        true
    else
      check_delay_muldiv_loop g last_muldiv node (i + 1) rest

/-- Multiply/divide-delay check `check_delay_muldiv(node)`. -/
def check_delay_muldiv (g : ir_graph) (st : HazardState) (node : Nat) : Bool :=
  match st.last_muldiv with
  | none => false
  | some m => check_delay_muldiv_loop g m node 0 (get_irn_in g node)

/-- Classification `_is_MulDiv(node)`. -/
def _is_MulDiv (g : ir_graph) (node : Nat) : Bool :=
  is_sparc_SMul g node || is_sparc_SMulCCZero g node
    || is_sparc_SMulh g node || is_sparc_UMulh g node
    || is_sparc_SDiv g node || is_sparc_UDiv g node

/-! ## The selector -/

/-- The compile-time constant `SIZE_CHECK`. -/
def SIZE_CHECK : Bool := false

/-- Number of members of a node set. -/
def ir_nodeset_size (s : List Nat) : Nat := s.length

/-- First member of a node set in iteration order (`NULL` on the empty set). -/
def ir_nodeset_first (s : List Nat) : Option Nat := s.head?

/-- The hazard results computed (and only logged) by the `foreach_ir_nodeset`
loop of `sparc_select`: one triple per member, in iteration order. -/
def sparc_select_checks (g : ir_graph) (st : HazardState) (ready_set : List Nat) :
    List (Bool × Bool × Bool) :=
  if SIZE_CHECK && ir_nodeset_size ready_set == 1 then
    []
  else
    ready_set.map fun irn =>
      (check_delay_load g st irn, check_branch st irn, check_delay_muldiv g st irn)

/-- The selector `sparc_select(ready_set)`: the returned node together with the
hazard state it leaves behind. On the empty set `ir_nodeset_first` yields
`NULL`, whose classification dereferences it: no result. -/
def sparc_select (g : ir_graph) (st : HazardState) (ready_set : List Nat) :
    Option (Nat × HazardState) :=
  let _logged := sparc_select_checks g st ready_set
  match ir_nodeset_first ready_set with
  | none => none
  | some node =>
    some (node,
      { last_load := if is_sparc_Ld g node then some node else none
        last_icci := st.last_icci
        last_muldiv := if _is_MulDiv g node then some node else none })

/-! ## The block driver -/

/-- Ways in which the driver can stop abnormally. -/
inductive SchedError where
  | assertion
  | out_of_bounds
  | null_deref
  deriving DecidableEq, Repr

/-- Result of the branch-condition lookup at the head of `sched_block`. -/
inductive Resolved where
  | ok (st : HazardState)
  | error (e : SchedError)
  deriving DecidableEq, Repr

/-- The node `get_irn_in(get_irn_in(successor_block)[0])[0]` that `sched_block`
takes for the conditional branch, for `successor_block = get_Block_cfg_out(block, 0)`. -/
def sched_block_branch (g : ir_graph) (block : Nat) : Except SchedError Nat :=
  match get_Block_cfg_out g block 0 with
  | none => .error .null_deref
  | some successor_block =>
    match (get_irn_in g successor_block)[0]? with
    | none => .error .out_of_bounds
    | some edge =>
      match (get_irn_in g edge)[0]? with
      | none => .error .out_of_bounds
      | some branch => .ok branch

/-- The `if (get_Block_n_cfg_outs(block) >= 2) ... else ...` statement of
`sched_block`: it assigns `last_icci` or stops at an assertion. -/
def sched_block_resolve (g : ir_graph) (st : HazardState) (block : Nat) : Resolved :=
  if get_Block_n_cfg_outs g block ≥ 2 then
    match sched_block_branch g block with
    | .error e => .error e
    | .ok branch =>
      if !is_sparc_Bicc g branch then .error .assertion
      else if get_irn_arity g branch != 1 then .error .assertion
      else
        match (get_irn_in g branch)[0]? with
        | none => .error .out_of_bounds
        | some icci =>
          if !is_sparc_Cmp g icci then .error .assertion
          else .ok { st with last_icci := some icci }
  else
    .ok { st with last_icci := none }

/-- The list-scheduling engine the driver talks to, over an engine state `σ`:
`be_list_sched_begin_block`, the current contents of the candidate set it
handed out, `be_list_sched_schedule` and `be_list_sched_end_block`. -/
structure list_sched (σ : Type) where
  begin_block : σ → Nat → σ
  cands : σ → List Nat
  schedule : σ → Nat → σ
  end_block : σ → σ

/-- Where the driver is in `sched_block`. -/
inductive Status where
  | running
  | finished
  | failed (e : SchedError)
  deriving DecidableEq, Repr

/-- State of `sched_block`: control point, hazard variables, engine state, and
a record of the nodes returned by `sparc_select` and of the nodes passed to
`be_list_sched_schedule`, oldest first. -/
structure DriverState (σ : Type) where
  status : Status
  hz : HazardState
  eng : σ
  selected : List Nat
  committed : List Nat

/-- Entry of `sched_block` up to and including `be_list_sched_begin_block`. -/
def sched_block_enter {σ : Type} (g : ir_graph) (E : list_sched σ) (st : HazardState) (es : σ)
    (block : Nat) : DriverState σ :=
  match sched_block_resolve g st block with
  | .error e =>
    { status := .failed e, hz := st, eng := es, selected := [], committed := [] }
  | .ok st1 =>
    { status := .running, hz := st1, eng := E.begin_block es block, selected := [], committed := [] }

/-- One evaluation of the guard of `while (ir_nodeset_size(cands) > 0)` followed
by the loop body, or by `be_list_sched_end_block` when the guard is false. -/
def sched_block_step {σ : Type} (g : ir_graph) (E : list_sched σ) (s : DriverState σ) :
    DriverState σ :=
  match s.status with
  | .running =>
    if ir_nodeset_size (E.cands s.eng) > 0 then
      match sparc_select g s.hz (E.cands s.eng) with
      | none => { s with status := .failed .null_deref }
      | some (node, st1) =>
        { status := .running, hz := st1, eng := E.schedule s.eng node,
          selected := s.selected ++ [node], committed := s.committed ++ [node] }
    else
      { s with status := .finished, eng := E.end_block s.eng }
  | _ => s

/-- The driver `sched_block(block)` run for at most `fuel` loop-guard evaluations. -/
def sched_block {σ : Type} (g : ir_graph) (E : list_sched σ) (fuel : Nat) (st : HazardState)
    (es : σ) (block : Nat) : DriverState σ :=
  (sched_block_step g E)^[fuel] (sched_block_enter g E st es block)

/-- The engine as `sched_sparc` uses it: the per-block interface together with
`be_list_sched_begin` and `be_list_sched_finish`. -/
structure be_list_sched (σ : Type) where
  block_engine : list_sched σ
  sched_begin : σ → σ
  sched_finish : σ → σ

/-- The walk `irg_block_walk_graph(irg, sched_block, NULL, NULL)` over the blocks
in the order the walker visits them: `sched_block` is run on each block with the
hazard variables and the engine state the previous block left; a block whose
driver fails (or does not finish within `fuel`) ends the walk with the state
of that driver. When every block finishes, the result is a finished state that
carries the hazard variables and the engine state the last block left. -/
def sched_sparc_walk {σ : Type} (g : ir_graph) (E : list_sched σ) (fuel : Nat) :
    List Nat → HazardState → σ → DriverState σ
  | [], st, es => { status := .finished, hz := st, eng := es, selected := [], committed := [] }
  | block :: rest, st, es =>
    match (sched_block g E fuel st es block).status with
    | .finished =>
      sched_sparc_walk g E fuel rest (sched_block g E fuel st es block).hz
        (sched_block g E fuel st es block).eng
    | _ => sched_block g E fuel st es block

/-- The session `sched_sparc(irg)`: `be_list_sched_begin`, the block walk,
`be_list_sched_finish`. `st` holds the values of the three file-level variables
at the time of the call, `blocks` is the visiting order of the walker. -/
def sched_sparc {σ : Type} (g : ir_graph) (S : be_list_sched σ) (fuel : Nat)
    (blocks : List Nat) (st : HazardState) (es : σ) : DriverState σ :=
  match (sched_sparc_walk g S.block_engine fuel blocks st (S.sched_begin es)).status with
  | .finished =>
    { sched_sparc_walk g S.block_engine fuel blocks st (S.sched_begin es) with
      eng := S.sched_finish
        (sched_sparc_walk g S.block_engine fuel blocks st (S.sched_begin es)).eng }
  | _ => sched_sparc_walk g S.block_engine fuel blocks st (S.sched_begin es)

/-! ## Histories of the hazard variables -/

/-- The two places that write the hazard variables: the lookup at the head of
`sched_block` for a block, and a call of `sparc_select` on a ready set. -/
inductive SchedEvent where
  | resolve (block : Nat)
  | select (ready_set : List Nat)
  deriving DecidableEq, Repr

/-- The hazard variables together with the node most recently returned by
`sparc_select`, if any. -/
structure TraceState where
  hz : HazardState
  last_selected : Option Nat
  deriving DecidableEq, Repr

/-- Effect of one event; `none` when the lookup stops at a failure or the
selector is called on the empty set. -/
def hazard_trace_step (g : ir_graph) (t : TraceState) : SchedEvent → Option TraceState
  | .resolve block =>
    match sched_block_resolve g t.hz block with
    | .ok st => some { hz := st, last_selected := t.last_selected }
    | .error _ => none
  | .select ready_set =>
    match sparc_select g t.hz ready_set with
    | some (n, st) => some { hz := st, last_selected := some n }
    | none => none

/-- Effect of a sequence of events, oldest first. -/
def hazard_trace (g : ir_graph) : List SchedEvent → TraceState → Option TraceState
  | [], t => some t
  | e :: es, t =>
    match hazard_trace_step g t e with
    | some t1 => hazard_trace g es t1
    | none => none

/-! ## Concrete graphs used to exercise the definitions -/

/-- A block (address 10) holding a load `L = 1`, its projection `2`, a store
`S = 3` whose value operand is the constant `5` and whose address operand is the
projection of `L`, an independent add `A = 4`, a compare `C = 6` and the
conditional branch `B = 7` reading it; the two exits `8`, `9` of `B` lead to the
blocks `11` and `12`. Further nodes of block 10: a store `13` whose value
operand is the projection of `L`, a multiply `M = 14` with projection `15`, a
store `16` reading `M` as value and as address, a store `17` reading `M` as
value only, an add `18` reading the projection of `M`. Node `19` lies in
block 11. -/
def exGraph : ir_graph where
  node := fun a =>
    match a with
    | 1 => { op := .sparc_Ld, ins := [] }
    | 2 => { op := .Proj, ins := [1] }
    | 3 => { op := .sparc_St, ins := [5, 2] }
    | 4 => { op := .other 0, ins := [5, 5] }
    | 5 => { op := .other 1, ins := [] }
    | 6 => { op := .sparc_Cmp, ins := [5, 5] }
    | 7 => { op := .sparc_Bicc, ins := [6] }
    | 8 => { op := .Proj, ins := [7] }
    | 9 => { op := .Proj, ins := [7] }
    | 10 => { op := .Block, ins := [] }
    | 11 => { op := .Block, ins := [8] }
    | 12 => { op := .Block, ins := [9] }
    | 13 => { op := .sparc_St, ins := [2, 5] }
    | 14 => { op := .sparc_SMul, ins := [5, 5] }
    | 15 => { op := .Proj, ins := [14] }
    | 16 => { op := .sparc_St, ins := [14, 14] }
    | 17 => { op := .sparc_St, ins := [14, 5] }
    | 18 => { op := .other 0, ins := [15, 5] }
    | 19 => { op := .other 0, ins := [] }
    | _ => { op := .other 2, ins := [] }
  nodes_block := fun a =>
    match a with
    | 11 => 11
    | 12 => 12
    | 19 => 11
    | _ => 10
  cfg_outs := fun b =>
    match b with
    | 10 => [11, 12]
    | _ => []

/-- A small engine over the list of nodes still to be scheduled: every remaining
node is a candidate, scheduling a node erases it. -/
def exEngine : list_sched (List Nat) where
  begin_block := fun _ b =>
    match b with
    | 10 => [1, 3, 4, 6, 7]
    | 11 => [19]
    | _ => []
  cands := fun es => es
  schedule := fun es n => es.erase n
  end_block := fun es => es

/-- A graph whose block 10 has two successors but whose first successor is
entered from a node (`21`) that is not a conditional branch. -/
def exBadGraph : ir_graph where
  node := fun a =>
    match a with
    | 10 => { op := .Block, ins := [] }
    | 11 => { op := .Block, ins := [20] }
    | 12 => { op := .Block, ins := [20] }
    | 20 => { op := .Proj, ins := [21] }
    | 21 => { op := .other 3, ins := [22] }
    | 22 => { op := .sparc_Cmp, ins := [] }
    | _ => { op := .other 2, ins := [] }
  nodes_block := fun a =>
    match a with
    | 11 => 11
    | 12 => 12
    | _ => 10
  cfg_outs := fun b =>
    match b with
    | 10 => [11, 12]
    | _ => []

/-- An engine over the list of nodes still to be scheduled: every remaining node
is a candidate, scheduling a node removes every occurrence of it. -/
def exFilterEngine : list_sched (List Nat) where
  begin_block := fun _ b =>
    match b with
    | 10 => [1, 3, 4, 6, 7]
    | 11 => [19]
    | 60 => [61, 62]
    | _ => []
  cands := fun es => es
  schedule := fun es n => es.filter fun m => m != n
  end_block := fun es => es

/-- The session interface over `exFilterEngine`. -/
def exSession : be_list_sched (List Nat) where
  block_engine := exFilterEngine
  sched_begin := fun _ => []
  sched_finish := fun es => es

/-- A routine of one block (address 60) without successors, holding an add `61`
and a load `62` of the address it computes. -/
def exLoadGraph : ir_graph where
  node := fun a =>
    match a with
    | 60 => { op := .Block, ins := [] }
    | 61 => { op := .other 0, ins := [] }
    | 62 => { op := .sparc_Ld, ins := [61] }
    | _ => { op := .other 2, ins := [] }
  nodes_block := fun _ => 60
  cfg_outs := fun _ => []

/-- Two blocks `10` and `30` that both end in a conditional branch (`7` reading
the compare `6` in block 10, `31` reading the compare `32` in block 30) and share
the successor `11`. The incoming edges of block 11 are the exit `33` of the
branch of block 30 first and the exit `8` of the branch of block 10 second. -/
def exCritGraph : ir_graph where
  node := fun a =>
    match a with
    | 5 => { op := .other 1, ins := [] }
    | 6 => { op := .sparc_Cmp, ins := [5, 5] }
    | 7 => { op := .sparc_Bicc, ins := [6] }
    | 8 => { op := .Proj, ins := [7] }
    | 9 => { op := .Proj, ins := [7] }
    | 10 => { op := .Block, ins := [] }
    | 11 => { op := .Block, ins := [33, 8] }
    | 12 => { op := .Block, ins := [9] }
    | 13 => { op := .Block, ins := [34] }
    | 30 => { op := .Block, ins := [] }
    | 31 => { op := .sparc_Bicc, ins := [32] }
    | 32 => { op := .sparc_Cmp, ins := [35, 35] }
    | 33 => { op := .Proj, ins := [31] }
    | 34 => { op := .Proj, ins := [31] }
    | 35 => { op := .other 1, ins := [] }
    | _ => { op := .other 2, ins := [] }
  nodes_block := fun a =>
    match a with
    | 11 => 11
    | 12 => 12
    | 13 => 13
    | 30 => 30
    | 31 => 30
    | 32 => 30
    | 33 => 30
    | 34 => 30
    | 35 => 30
    | _ => 10
  cfg_outs := fun b =>
    match b with
    | 10 => [11, 12]
    | 30 => [11, 13]
    | _ => []

/-! ## Operand loops of the hazard checks -/

theorem check_delay_load_inner_iff (l : Nat) (xs : List Nat) :
    check_delay_load_inner l xs = true ↔ l ∈ xs := by
  induction xs with
  | nil => simp [check_delay_load_inner]
  | cons x xs ih =>
    simp only [check_delay_load_inner]
    by_cases h : x = l
    · simp [h]
    · simp [h, ih, Ne.symm h]

theorem check_delay_load_loop_iff (g : ir_graph) (l node : Nat) (xs : List Nat) (i : Nat) :
    check_delay_load_loop g l node i xs = true ↔
      ∃ j pred, xs[j]? = some pred ∧ ¬(i + j = 0 ∧ is_sparc_St g node = true) ∧
        (pred = l ∨ (is_Proj g pred = true ∧ l ∈ get_irn_in g pred)) := by
  induction xs generalizing i with
  | nil => simp [check_delay_load_loop]
  | cons x xs ih =>
    rw [check_delay_load_loop]
    have tail_up : (∃ j pred, xs[j]? = some pred ∧ ¬(i + 1 + j = 0 ∧ is_sparc_St g node = true) ∧
        (pred = l ∨ (is_Proj g pred = true ∧ l ∈ get_irn_in g pred))) →
        ∃ j pred, (x :: xs)[j]? = some pred ∧ ¬(i + j = 0 ∧ is_sparc_St g node = true) ∧
        (pred = l ∨ (is_Proj g pred = true ∧ l ∈ get_irn_in g pred)) := by
      rintro ⟨j, pred, hj, -, hr⟩
      exact ⟨j + 1, pred, by simpa using hj, by omega, hr⟩
    have tail_down : (∃ j pred, (x :: xs)[j]? = some pred ∧ ¬(i + j = 0 ∧ is_sparc_St g node = true) ∧
        (pred = l ∨ (is_Proj g pred = true ∧ l ∈ get_irn_in g pred))) →
        ((¬(i = 0 ∧ is_sparc_St g node = true) ∧
          (x = l ∨ (is_Proj g x = true ∧ l ∈ get_irn_in g x))) ∨
        ∃ j pred, xs[j]? = some pred ∧ ¬(i + 1 + j = 0 ∧ is_sparc_St g node = true) ∧
        (pred = l ∨ (is_Proj g pred = true ∧ l ∈ get_irn_in g pred))) := by
      rintro ⟨j, pred, hj, hn, hr⟩
      cases j with
      | zero =>
        simp only [List.getElem?_cons_zero, Option.some.injEq] at hj
        subst hj
        exact Or.inl ⟨by simpa using hn, hr⟩
      | succ j =>
        exact Or.inr ⟨j, pred, by simpa using hj, by omega, hr⟩
    by_cases h1 : (i == 0 && is_sparc_St g node) = true
    · rw [if_pos h1, ih (i + 1)]
      refine ⟨tail_up, fun h => ?_⟩
      rcases tail_down h with ⟨hn, -⟩ | h
      · exact absurd (by simpa using h1) hn
      · exact h
    · rw [if_neg h1]
      have h1n : ¬(i = 0 ∧ is_sparc_St g node = true) := by simpa using h1
      by_cases h2 : (x == l) = true
      · rw [if_pos h2]
        simp only [true_iff]
        exact ⟨0, x, by simp, by simpa using h1n, Or.inl (by simpa using h2)⟩
      · rw [if_neg h2]
        have h2n : x ≠ l := by simpa using h2
        by_cases h3 : (!is_Proj g x) = true
        · rw [if_pos h3, ih (i + 1)]
          refine ⟨tail_up, fun h => ?_⟩
          rcases tail_down h with ⟨-, hx | ⟨hp, -⟩⟩ | h
          · exact absurd hx h2n
          · simp [hp] at h3
          · exact h
        · rw [if_neg h3]
          have h3p : is_Proj g x = true := by simpa using h3
          by_cases h4 : check_delay_load_inner l (get_irn_in g x) = true
          · rw [if_pos h4]
            simp only [true_iff]
            exact ⟨0, x, by simp, by simpa using h1n,
              Or.inr ⟨h3p, (check_delay_load_inner_iff l _).1 h4⟩⟩
          · rw [if_neg h4, ih (i + 1)]
            refine ⟨tail_up, fun h => ?_⟩
            rcases tail_down h with ⟨-, hx | ⟨-, hm⟩⟩ | h
            · exact absurd hx h2n
            · exact absurd ((check_delay_load_inner_iff l _).2 hm) h4
            · exact h

theorem check_delay_muldiv_loop_iff (g : ir_graph) (m node : Nat) (xs : List Nat) (i : Nat) :
    check_delay_muldiv_loop g m node i xs = true ↔
      ∃ j, xs[j]? = some m ∧ ¬(i + j = 0 ∧ is_sparc_St g node = true) := by
  induction xs generalizing i with
  | nil => simp [check_delay_muldiv_loop]
  | cons x xs ih =>
    rw [check_delay_muldiv_loop]
    have tail_up : (∃ j, xs[j]? = some m ∧ ¬(i + 1 + j = 0 ∧ is_sparc_St g node = true)) →
        ∃ j, (x :: xs)[j]? = some m ∧ ¬(i + j = 0 ∧ is_sparc_St g node = true) := by
      rintro ⟨j, hj, -⟩
      exact ⟨j + 1, by simpa using hj, by omega⟩
    have tail_down : (∃ j, (x :: xs)[j]? = some m ∧ ¬(i + j = 0 ∧ is_sparc_St g node = true)) →
        ((x = m ∧ ¬(i = 0 ∧ is_sparc_St g node = true)) ∨
          ∃ j, xs[j]? = some m ∧ ¬(i + 1 + j = 0 ∧ is_sparc_St g node = true)) := by
      rintro ⟨j, hj, hn⟩
      cases j with
      | zero => exact Or.inl ⟨by simpa using hj, by simpa using hn⟩
      | succ j => exact Or.inr ⟨j, by simpa using hj, by omega⟩
    by_cases h1 : (x == m) = true
    · rw [if_pos h1]
      have hx : x = m := by simpa using h1
      by_cases h2 : (i == 0 && is_sparc_St g node) = true
      · rw [if_pos h2, ih (i + 1)]
        refine ⟨tail_up, fun h => ?_⟩
        rcases tail_down h with ⟨-, hn⟩ | h
        · exact absurd (by simpa using h2) hn
        · exact h
      · rw [if_neg h2]
        simp only [true_iff]
        exact ⟨0, by simp [hx], by simpa using h2⟩
    · rw [if_neg h1, ih (i + 1)]
      refine ⟨tail_up, fun h => ?_⟩
      rcases tail_down h with ⟨hx, -⟩ | h
      · exact absurd (by simpa using hx) h1
      · exact h

/-! ## Hazard checks -/

/-- C2. Load hazard characterisation: with `last_load = L`, `check_delay_load I`
is true exactly when some operand position `i` of `I`, other than position 0 of a
store, holds `L` itself or a `Proj` that has `L` among its operands; with
`last_load` unset it is false. Hence a store that refers to `L` only at operand
index 0 has no load hazard, and a store that refers to `L` at an index `≥ 1` has
one. -/
theorem check_delay_load_characterisation (g : ir_graph) (st : HazardState) (I : Nat) :
    (∀ L, st.last_load = some L →
      (check_delay_load g st I = true ↔
        ∃ i pred, (get_irn_in g I)[i]? = some pred ∧ ¬(i = 0 ∧ is_sparc_St g I = true) ∧
          (pred = L ∨ (is_Proj g pred = true ∧ L ∈ get_irn_in g pred)))) ∧
    (st.last_load = none → check_delay_load g st I = false) ∧
    (∀ L, st.last_load = some L → is_sparc_St g I = true →
      (∀ i pred, (get_irn_in g I)[i]? = some pred →
        (pred = L ∨ (is_Proj g pred = true ∧ L ∈ get_irn_in g pred)) → i = 0) →
      check_delay_load g st I = false) ∧
    (∀ L, st.last_load = some L → is_sparc_St g I = true →
      ∀ i pred, 1 ≤ i → (get_irn_in g I)[i]? = some pred →
        (pred = L ∨ (is_Proj g pred = true ∧ L ∈ get_irn_in g pred)) →
      check_delay_load g st I = true) := by
  have main : ∀ L, st.last_load = some L →
      (check_delay_load g st I = true ↔
        ∃ i pred, (get_irn_in g I)[i]? = some pred ∧ ¬(i = 0 ∧ is_sparc_St g I = true) ∧
          (pred = L ∨ (is_Proj g pred = true ∧ L ∈ get_irn_in g pred))) := by
    intro L hL
    unfold check_delay_load
    rw [hL]
    simpa using check_delay_load_loop_iff g L I (get_irn_in g I) 0
  refine ⟨main, ?_, ?_, ?_⟩
  · intro h
    unfold check_delay_load
    rw [h]
  · intro L hL hSt honly
    rw [Bool.eq_false_iff]
    intro hc
    obtain ⟨i, pred, hi, hn, hr⟩ := (main L hL).1 hc
    exact hn ⟨honly i pred hi hr, hSt⟩
  · intro L hL _ i pred h1 hi hr
    exact (main L hL).2 ⟨i, pred, hi, by omega, hr⟩

/-- C2 on the example block: after the load `1`, the store `3` (address operand
is the projection of the load) has a load hazard, the store `13` (only the value
operand is the projection of the load) has none, and with no load recorded the
store `3` has none. -/
theorem check_delay_load_characterisation_witness :
    check_delay_load exGraph ⟨some 1, none, none⟩ 3 = true ∧
    check_delay_load exGraph ⟨some 1, none, none⟩ 13 = false ∧
    check_delay_load exGraph ⟨none, none, none⟩ 3 = false :=
  ⟨(check_delay_load_characterisation exGraph ⟨some 1, none, none⟩ 3).2.2.2 1 rfl (by decide)
      1 2 (by decide) (by decide) (Or.inr (by decide)),
   (check_delay_load_characterisation exGraph ⟨some 1, none, none⟩ 13).2.2.1 1 rfl (by decide)
      (by
        intro i pred hi hr
        match i, hi with
        | 0, _ => rfl
        | 1, hi =>
          have h5 : pred = 5 := by
            have : (some 5 : Option Nat) = some pred := hi
            exact (Option.some.inj this).symm
          subst h5
          revert hr
          decide
        | i + 2, hi => exact absurd hi (by simp [get_irn_in, exGraph])),
   (check_delay_load_characterisation exGraph ⟨none, none, none⟩ 3).2.1 rfl⟩

/-- C3. Multiply/divide hazard characterisation: `check_delay_muldiv I` is true
exactly when `last_muldiv` is some `M` and an operand position `i` of `I` holds
`M` itself, with `i ≠ 0` when `I` is a store. Hence a store with `M` at index 0
and at an index `≥ 1` is hazardous, a store with `M` only at index 0 is not, and
an instruction without `M` among its own operands (reaching it at most through a
`Proj`) is not. -/
theorem check_delay_muldiv_characterisation (g : ir_graph) (st : HazardState) (I : Nat) :
    (check_delay_muldiv g st I = true ↔
      ∃ M, st.last_muldiv = some M ∧
        ∃ i, (get_irn_in g I)[i]? = some M ∧ (is_sparc_St g I = true → i ≠ 0)) ∧
    (∀ M i, st.last_muldiv = some M → is_sparc_St g I = true →
      (get_irn_in g I)[0]? = some M → 1 ≤ i → (get_irn_in g I)[i]? = some M →
      check_delay_muldiv g st I = true) ∧
    (∀ M, st.last_muldiv = some M → is_sparc_St g I = true →
      (∀ i, (get_irn_in g I)[i]? = some M → i = 0) →
      check_delay_muldiv g st I = false) ∧
    (∀ M, st.last_muldiv = some M → M ∉ get_irn_in g I →
      check_delay_muldiv g st I = false) := by
  have main : check_delay_muldiv g st I = true ↔
      ∃ M, st.last_muldiv = some M ∧
        ∃ i, (get_irn_in g I)[i]? = some M ∧ (is_sparc_St g I = true → i ≠ 0) := by
    unfold check_delay_muldiv
    cases hM : st.last_muldiv with
    | none => simp
    | some M =>
      simp only [Option.some.injEq, exists_eq_left']
      rw [check_delay_muldiv_loop_iff]
      constructor
      · rintro ⟨j, hj, hn⟩
        exact ⟨j, hj, fun hs h0 => hn ⟨by omega, hs⟩⟩
      · rintro ⟨j, hj, hn⟩
        exact ⟨j, hj, fun h => hn h.2 (by omega)⟩
  refine ⟨main, ?_, ?_, ?_⟩
  · intro M i hM _ _ h1 hi
    exact main.2 ⟨M, hM, i, hi, fun _ => by omega⟩
  · intro M hM hSt honly
    rw [Bool.eq_false_iff]
    intro hc
    obtain ⟨M1, hM1, i, hi, hn⟩ := main.1 hc
    rw [hM] at hM1
    cases hM1
    exact hn hSt (honly i hi)
  · intro M hM hnot
    rw [Bool.eq_false_iff]
    intro hc
    obtain ⟨M1, hM1, i, hi, -⟩ := main.1 hc
    rw [hM] at hM1
    cases hM1
    exact hnot (List.getElem?_mem hi)

/-- C3 on the example block: after the multiply `14`, the store `16` (reads it
as value and as address) is hazardous, the store `17` (reads it as value only)
is not, and the add `18` (reads only its projection) is not. -/
theorem check_delay_muldiv_characterisation_witness :
    check_delay_muldiv exGraph ⟨none, none, some 14⟩ 16 = true ∧
    check_delay_muldiv exGraph ⟨none, none, some 14⟩ 17 = false ∧
    check_delay_muldiv exGraph ⟨none, none, some 14⟩ 18 = false :=
  ⟨(check_delay_muldiv_characterisation exGraph ⟨none, none, some 14⟩ 16).2.1 14 1 rfl
      (by decide) (by decide) (by decide) (by decide),
   (check_delay_muldiv_characterisation exGraph ⟨none, none, some 14⟩ 17).2.2.1 14 rfl
      (by decide)
      (by
        intro i hi
        match i, hi with
        | 0, _ => rfl
        | 1, hi => exact absurd hi (by decide)
        | i + 2, hi => exact absurd hi (by simp [get_irn_in, exGraph])),
   (check_delay_muldiv_characterisation exGraph ⟨none, none, some 14⟩ 18).2.2.2 14 rfl
      (by decide)⟩

/-! ## The selector -/

/-- On a non-empty ready set the selector returns the first member in iteration
order and records it in `last_load` and `last_muldiv`, keeping `last_icci`. -/
theorem sparc_select_cons (g : ir_graph) (st : HazardState) (n : Nat) (rest : List Nat) :
    sparc_select g st (n :: rest) =
      some (n,
        { last_load := if is_sparc_Ld g n then some n else none
          last_icci := st.last_icci
          last_muldiv := if _is_MulDiv g n then some n else none }) := rfl

theorem sparc_select_nil (g : ir_graph) (st : HazardState) :
    sparc_select g st [] = none := rfl

theorem _is_MulDiv_iff (g : ir_graph) (n : Nat) :
    _is_MulDiv g n = true ↔
      (g.node n).op = .sparc_SMul ∨ (g.node n).op = .sparc_SMulCCZero ∨
      (g.node n).op = .sparc_SMulh ∨ (g.node n).op = .sparc_UMulh ∨
      (g.node n).op = .sparc_SDiv ∨ (g.node n).op = .sparc_UDiv := by
  simp [_is_MulDiv, is_sparc_SMul, is_sparc_SMulCCZero, is_sparc_SMulh, is_sparc_UMulh,
    is_sparc_SDiv, is_sparc_UDiv, or_assoc]

/-- C1 fails. In the example block, with the compare `6` resolved as `last_icci`
and the load `1` just selected, the ready set holds the store `3` (address
operand is the projection of the load) and the independent add `4`: the add has
no hazard, the store has a load hazard, and the selector returns the store. -/
theorem sparc_select_prefers_hazard_free_counterexample :
    sparc_select exGraph ⟨none, some 6, none⟩ [1] = some (1, ⟨some 1, some 6, none⟩) ∧
    2 ≤ ir_nodeset_size [3, 4] ∧
    4 ∈ [3, 4] ∧
    (check_delay_load exGraph ⟨some 1, some 6, none⟩ 4 = false ∧
      check_branch ⟨some 1, some 6, none⟩ 4 = false ∧
      check_delay_muldiv exGraph ⟨some 1, some 6, none⟩ 4 = false) ∧
    (get_irn_in exGraph 3)[1]? = some 2 ∧ is_Proj exGraph 2 = true ∧
    1 ∈ get_irn_in exGraph 2 ∧
    check_delay_load exGraph ⟨some 1, some 6, none⟩ 3 = true ∧
    sparc_select exGraph ⟨some 1, some 6, none⟩ [3, 4] = some (3, ⟨none, some 6, none⟩) ∧
    ¬ ∃ n st1, sparc_select exGraph ⟨some 1, some 6, none⟩ [3, 4] = some (n, st1) ∧
      n ∈ [3, 4] ∧ check_delay_load exGraph ⟨some 1, some 6, none⟩ n = false ∧
      check_branch ⟨some 1, some 6, none⟩ n = false ∧
      check_delay_muldiv exGraph ⟨some 1, some 6, none⟩ n = false := by
  refine ⟨by decide, by decide, by decide, by decide, by decide, by decide, by decide,
    by decide, by decide, ?_⟩
  rintro ⟨n, st1, hsel, -, hload, -, -⟩
  have h3 : n = 3 := by
    have h := congrArg (Option.map Prod.fst) hsel
    simpa [sparc_select_cons] using h.symm
  subst h3
  revert hload
  decide

/-- C1 as amended. For a ready set with at least two members whose first member
in iteration order has all three checks false, the selector returns a member
with all three checks false (that first member). For a store `S` and another
instruction `A`, the selector does not return `S` from the ready set `A, S` and
returns `S` from the ready set `S, A`, whatever the hazard state. -/
theorem sparc_select_hazard_free_first (g : ir_graph) (st : HazardState) (rs : List Nat)
    (f : Nat) (h2 : 2 ≤ ir_nodeset_size rs) (hf : ir_nodeset_first rs = some f)
    (hfree : check_delay_load g st f = false ∧ check_branch st f = false ∧
      check_delay_muldiv g st f = false) :
    (∃ n st1, sparc_select g st rs = some (n, st1) ∧ n ∈ rs ∧ n = f ∧
      check_delay_load g st n = false ∧ check_branch st n = false ∧
      check_delay_muldiv g st n = false) ∧
    (∀ S A, S ≠ A →
      (∀ st1, sparc_select g st [A, S] ≠ some (S, st1)) ∧
      (∃ st1, sparc_select g st [S, A] = some (S, st1))) := by
  constructor
  · cases rs with
    | nil => simp [ir_nodeset_size] at h2
    | cons x rest =>
      have hx : x = f := by simpa [ir_nodeset_first] using hf
      subst hx
      exact ⟨x, _, sparc_select_cons g st x rest, by simp, rfl, hfree⟩
  · intro S A hne
    refine ⟨fun st1 h => ?_, ⟨_, sparc_select_cons g st S [A]⟩⟩
    rw [sparc_select_cons] at h
    have h1 := congrArg Prod.fst (Option.some.inj h)
    exact hne h1.symm

/-- The amended C1 on the example block: with the ready set iterated as add `4`
then store `3` right after the load `1`, the selector returns the hazard-free
add. -/
theorem sparc_select_hazard_free_first_witness :
    ∃ n st1, sparc_select exGraph ⟨some 1, some 6, none⟩ [4, 3] = some (n, st1) ∧ n ∈ [4, 3] ∧
      n = 4 ∧ check_delay_load exGraph ⟨some 1, some 6, none⟩ n = false ∧
      check_branch ⟨some 1, some 6, none⟩ n = false ∧
      check_delay_muldiv exGraph ⟨some 1, some 6, none⟩ n = false :=
  (sparc_select_hazard_free_first exGraph ⟨some 1, some 6, none⟩ [4, 3] 4 (by decide) rfl
    (by decide)).1

/-- C7. Selection recording: after the selector returns `n` from a non-empty
ready set, `last_load` is `n` if `n` is a `sparc_Ld` and unset otherwise, and
`last_muldiv` is `n` if `n` is one of `SMul`, `SMulCCZero`, `SMulh`, `UMulh`,
`SDiv`, `UDiv` and unset otherwise; the two fields do not depend on the prior
hazard state. -/
theorem sparc_select_records (g : ir_graph) (st : HazardState) (rs : List Nat)
    (hne : rs ≠ []) :
    ∃ n st1, sparc_select g st rs = some (n, st1) ∧
      ((g.node n).op = .sparc_Ld → st1.last_load = some n) ∧
      ((g.node n).op ≠ .sparc_Ld → st1.last_load = none) ∧
      (((g.node n).op = .sparc_SMul ∨ (g.node n).op = .sparc_SMulCCZero ∨
        (g.node n).op = .sparc_SMulh ∨ (g.node n).op = .sparc_UMulh ∨
        (g.node n).op = .sparc_SDiv ∨ (g.node n).op = .sparc_UDiv) →
          st1.last_muldiv = some n) ∧
      (¬((g.node n).op = .sparc_SMul ∨ (g.node n).op = .sparc_SMulCCZero ∨
        (g.node n).op = .sparc_SMulh ∨ (g.node n).op = .sparc_UMulh ∨
        (g.node n).op = .sparc_SDiv ∨ (g.node n).op = .sparc_UDiv) →
          st1.last_muldiv = none) ∧
      (∀ st2, ∃ st3, sparc_select g st2 rs = some (n, st3) ∧
        st3.last_load = st1.last_load ∧ st3.last_muldiv = st1.last_muldiv) := by
  cases rs with
  | nil => exact absurd rfl hne
  | cons n rest =>
    refine ⟨n, _, sparc_select_cons g st n rest, ?_, ?_, ?_, ?_, ?_⟩
    · intro h
      simp [is_sparc_Ld, h]
    · intro h
      simp [is_sparc_Ld, h]
    · intro h
      simp [(_is_MulDiv_iff g n).2 h]
    · intro h
      have : _is_MulDiv g n = false := by
        rw [Bool.eq_false_iff]
        exact fun hc => h ((_is_MulDiv_iff g n).1 hc)
      simp [this]
    · intro st2
      exact ⟨_, sparc_select_cons g st2 n rest, rfl, rfl⟩

/-- C7 on the example block: selecting the multiply `14` while a load is
recorded leaves `last_load` unset and `last_muldiv = 14`. -/
theorem sparc_select_records_witness :
    ∃ n st1, sparc_select exGraph ⟨some 1, some 6, none⟩ [14, 4] = some (n, st1) ∧
      ((exGraph.node n).op = .sparc_Ld → st1.last_load = some n) ∧
      ((exGraph.node n).op ≠ .sparc_Ld → st1.last_load = none) ∧
      (((exGraph.node n).op = .sparc_SMul ∨ (exGraph.node n).op = .sparc_SMulCCZero ∨
        (exGraph.node n).op = .sparc_SMulh ∨ (exGraph.node n).op = .sparc_UMulh ∨
        (exGraph.node n).op = .sparc_SDiv ∨ (exGraph.node n).op = .sparc_UDiv) →
          st1.last_muldiv = some n) ∧
      (¬((exGraph.node n).op = .sparc_SMul ∨ (exGraph.node n).op = .sparc_SMulCCZero ∨
        (exGraph.node n).op = .sparc_SMulh ∨ (exGraph.node n).op = .sparc_UMulh ∨
        (exGraph.node n).op = .sparc_SDiv ∨ (exGraph.node n).op = .sparc_UDiv) →
          st1.last_muldiv = none) ∧
      (∀ st2, ∃ st3, sparc_select exGraph st2 [14, 4] = some (n, st3) ∧
        st3.last_load = st1.last_load ∧ st3.last_muldiv = st1.last_muldiv) :=
  sparc_select_records exGraph ⟨some 1, some 6, none⟩ [14, 4] (by decide)

/-- C8. On a non-empty ready set the selector returns one instruction, a member
of that ready set, whatever the hazard state and whatever hazards the members
have. -/
theorem sparc_select_total (g : ir_graph) (st : HazardState) (rs : List Nat)
    (hne : 0 < ir_nodeset_size rs) :
    ∃ n st1, sparc_select g st rs = some (n, st1) ∧ n ∈ rs := by
  cases rs with
  | nil => simp [ir_nodeset_size] at hne
  | cons n rest => exact ⟨n, _, sparc_select_cons g st n rest, by simp⟩

/-- C8 on the example block: right after the load `1`, with the compare `6` as
`last_icci`, the ready set holding only the store `3` (load hazard) and the
compare `6` (branch hazard) still yields a member. -/
theorem sparc_select_total_witness :
    check_delay_load exGraph ⟨some 1, some 6, none⟩ 3 = true ∧
    check_branch ⟨some 1, some 6, none⟩ 6 = true ∧
    ∃ n st1, sparc_select exGraph ⟨some 1, some 6, none⟩ [3, 6] = some (n, st1) ∧ n ∈ [3, 6] :=
  ⟨by decide, by decide, sparc_select_total exGraph ⟨some 1, some 6, none⟩ [3, 6] (by decide)⟩

/-- C9. On a ready set with exactly one member `x` the selector returns `x`. -/
theorem sparc_select_singleton (g : ir_graph) (st : HazardState) (rs : List Nat) (x : Nat)
    (h1 : ir_nodeset_size rs = 1) (hx : x ∈ rs) :
    ∃ st1, sparc_select g st rs = some (x, st1) := by
  match rs, h1, hx with
  | [y], _, hx =>
    have hxy : x = y := by simpa using hx
    subst hxy
    exact ⟨_, sparc_select_cons g st x []⟩

/-- C9 on the example block: the ready set holding only the branch `7`. -/
theorem sparc_select_singleton_witness :
    ∃ st1, sparc_select exGraph ⟨none, some 6, none⟩ [7] = some (7, st1) :=
  sparc_select_singleton exGraph ⟨none, some 6, none⟩ [7] 7 rfl (by decide)

/-- C10. The instruction returned by the selector does not depend on the hazard
state: on a non-empty ready set it is the first member in iteration order, for
any two hazard states. -/
theorem sparc_select_independent (g : ir_graph) (st1 st2 : HazardState) (rs : List Nat)
    (hne : rs ≠ []) :
    (sparc_select g st1 rs).map Prod.fst = (sparc_select g st2 rs).map Prod.fst ∧
    (sparc_select g st1 rs).map Prod.fst = some (rs.head hne) ∧
    (sparc_select g st1 rs).map Prod.fst = ir_nodeset_first rs := by
  cases rs with
  | nil => exact absurd rfl hne
  | cons n rest => exact ⟨rfl, rfl, rfl⟩

/-- C10 on the example block: with and without a recorded load the selector
returns the store `3` from the ready set `3, 4`. -/
theorem sparc_select_independent_witness :
    (sparc_select exGraph ⟨some 1, some 6, none⟩ [3, 4]).map Prod.fst =
      (sparc_select exGraph ⟨none, none, none⟩ [3, 4]).map Prod.fst ∧
    (sparc_select exGraph ⟨some 1, some 6, none⟩ [3, 4]).map Prod.fst = some 3 ∧
    (sparc_select exGraph ⟨some 1, some 6, none⟩ [3, 4]).map Prod.fst =
      ir_nodeset_first [3, 4] :=
  sparc_select_independent exGraph ⟨some 1, some 6, none⟩ ⟨none, none, none⟩ [3, 4] (by decide)

/-! ## The block driver -/

/-- A loop step never touches `last_icci`. -/
theorem sched_block_step_last_icci {σ : Type} (g : ir_graph) (E : list_sched σ)
    (s : DriverState σ) : (sched_block_step g E s).hz.last_icci = s.hz.last_icci := by
  unfold sched_block_step
  cases hs : s.status with
  | running =>
    simp only
    split_ifs with hsz
    · cases hc : E.cands s.eng with
      | nil => simp [sparc_select_nil]
      | cons n rest => simp [sparc_select_cons]
    · rfl
  | finished => rfl
  | failed e => rfl

theorem sched_block_iterate_last_icci {σ : Type} (g : ir_graph) (E : list_sched σ)
    (k : Nat) (s : DriverState σ) :
    ((sched_block_step g E)^[k] s).hz.last_icci = s.hz.last_icci := by
  induction k with
  | zero => rfl
  | succ k ih => rw [Function.iterate_succ_apply', sched_block_step_last_icci, ih]

/-- A driver that stopped at a failure stays there. -/
theorem sched_block_iterate_failed {σ : Type} (g : ir_graph) (E : list_sched σ)
    (k : Nat) (s : DriverState σ) (e : SchedError) (hs : s.status = .failed e) :
    (sched_block_step g E)^[k] s = s := by
  induction k with
  | zero => rfl
  | succ k ih =>
    rw [Function.iterate_succ_apply', ih]
    unfold sched_block_step
    rw [hs]

/-- A loop step never fails: the guard keeps the selector away from the empty
ready set. -/
theorem sched_block_step_not_failed {σ : Type} (g : ir_graph) (E : list_sched σ)
    (s : DriverState σ) (hs : ∀ e, s.status ≠ .failed e) :
    ∀ e, (sched_block_step g E s).status ≠ .failed e := by
  intro e
  unfold sched_block_step
  cases hst : s.status with
  | running =>
    simp only
    split_ifs with hsz
    · cases hc : E.cands s.eng with
      | nil => simp [ir_nodeset_size, hc] at hsz
      | cons n rest => simp [sparc_select_cons]
    · simp
  | finished => simp [hst]
  | failed e1 => exact absurd hst (hs e1)

theorem sched_block_iterate_not_failed {σ : Type} (g : ir_graph) (E : list_sched σ)
    (k : Nat) (s : DriverState σ) (hs : ∀ e, s.status ≠ .failed e) :
    ∀ e, ((sched_block_step g E)^[k] s).status ≠ .failed e := by
  induction k with
  | zero => exact hs
  | succ k ih =>
    rw [Function.iterate_succ_apply']
    exact sched_block_step_not_failed g E _ ih

/-- C4. For a block with at least two control-flow successors in the expected
shape (the first operand of the first incoming edge of successor 0 is a
`sparc_Bicc` whose only operand is a `sparc_Cmp`), the lookup at the head of
`sched_block` succeeds with `last_icci` set to that compare; on entry to the
loop, before any selection, `check_branch` is true of the compare and false of
every other instruction. -/
theorem sched_block_resolve_expected_shape (g : ir_graph) (st : HazardState)
    (block succ edge branch cmp : Nat)
    (h2 : 2 ≤ get_Block_n_cfg_outs g block)
    (hsucc : get_Block_cfg_out g block 0 = some succ)
    (hedge : (get_irn_in g succ)[0]? = some edge)
    (hbranch : (get_irn_in g edge)[0]? = some branch)
    (hbicc : is_sparc_Bicc g branch = true)
    (hone : get_irn_in g branch = [cmp])
    (hcmp : is_sparc_Cmp g cmp = true) :
    sched_block_resolve g st block = .ok { st with last_icci := some cmp } ∧
    ∀ (σ : Type) (E : list_sched σ) (es : σ),
      (sched_block_enter g E st es block).status = .running ∧
      (sched_block_enter g E st es block).hz.last_icci = some cmp ∧
      (sched_block_enter g E st es block).selected = [] ∧
      (sched_block_enter g E st es block).committed = [] ∧
      check_branch (sched_block_enter g E st es block).hz cmp = true ∧
      ∀ J, J ≠ cmp → check_branch (sched_block_enter g E st es block).hz J = false := by
  have hres : sched_block_resolve g st block = .ok { st with last_icci := some cmp } := by
    unfold sched_block_resolve sched_block_branch
    simp [h2, hsucc, hedge, hbranch, hbicc, hone, hcmp, get_irn_arity]
  refine ⟨hres, fun σ E es => ?_⟩
  unfold sched_block_enter
  rw [hres]
  refine ⟨rfl, rfl, rfl, rfl, by simp [check_branch], fun J hJ => ?_⟩
  simp [check_branch, hJ]

/-- C4 on the example block `10`: the compare `6` is resolved, `check_branch` is
true of it and false of the add `4`. -/
theorem sched_block_resolve_expected_shape_witness :
    sched_block_resolve exGraph HazardState.init 10 = .ok ⟨none, some 6, none⟩ ∧
    check_branch (sched_block_enter exGraph exEngine HazardState.init [] 10).hz 6 = true ∧
    check_branch (sched_block_enter exGraph exEngine HazardState.init [] 10).hz 4 = false :=
  have h := sched_block_resolve_expected_shape exGraph HazardState.init 10 11 8 7 6
    (by decide) (by decide) (by decide) (by decide) (by decide) (by decide) (by decide)
  ⟨h.1, (h.2 (List Nat) exEngine []).2.2.2.2.1, (h.2 (List Nat) exEngine []).2.2.2.2.2 4 (by decide)⟩

/-- C5. For a block with fewer than two control-flow successors and any prior
hazard state, the lookup at the head of `sched_block` succeeds and unsets
`last_icci`; at every point of the scheduling loop of that block `last_icci` is
unset and `check_branch` is false of every instruction. -/
theorem sched_block_no_branch {σ : Type} (g : ir_graph) (E : list_sched σ) (st : HazardState)
    (es : σ) (block : Nat) (hlt : get_Block_n_cfg_outs g block < 2) :
    sched_block_resolve g st block = .ok { st with last_icci := none } ∧
    (sched_block_enter g E st es block).status = .running ∧
    ∀ fuel : Nat,
      (sched_block g E fuel st es block).hz.last_icci = none ∧
      (∀ e, (sched_block g E fuel st es block).status ≠ .failed e) ∧
      ∀ I, check_branch (sched_block g E fuel st es block).hz I = false := by
  have hres : sched_block_resolve g st block = .ok { st with last_icci := none } := by
    unfold sched_block_resolve
    rw [if_neg (by omega)]
  have henter : sched_block_enter g E st es block =
      { status := .running, hz := { st with last_icci := none },
        eng := E.begin_block es block, selected := [], committed := [] } := by
    unfold sched_block_enter
    rw [hres]
  refine ⟨hres, by rw [henter], fun fuel => ?_⟩
  have hicci : (sched_block g E fuel st es block).hz.last_icci = none := by
    unfold sched_block
    rw [sched_block_iterate_last_icci, henter]
  refine ⟨hicci, ?_, fun I => by simp [check_branch, hicci]⟩
  unfold sched_block
  apply sched_block_iterate_not_failed
  rw [henter]
  intro e
  simp

/-- C5 on the example graph: block `11` has no successor; entered with a stale
`last_icci = 6` and run for three steps over the example engine, `last_icci` is
unset and `check_branch` is false of the compare `6`. -/
theorem sched_block_no_branch_witness :
    sched_block_resolve exGraph ⟨some 1, some 6, none⟩ 11 = .ok ⟨some 1, none, none⟩ ∧
    (sched_block exGraph exEngine 3 ⟨some 1, some 6, none⟩ [] 11).hz.last_icci = none ∧
    check_branch (sched_block exGraph exEngine 3 ⟨some 1, some 6, none⟩ [] 11).hz 6 = false :=
  have h := sched_block_no_branch exGraph exEngine ⟨some 1, some 6, none⟩ [] 11 (by decide)
  ⟨h.1, (h.2.2 3).1, (h.2.2 3).2.2 6⟩

/-- C6. For a block with at least two control-flow successors for which the
node `branch` is found as first operand of the first incoming edge of successor
0, the lookup at the head of `sched_block` stops at an assertion exactly when
`branch` is not a `sparc_Bicc`, or does not have exactly one operand, or its
operand is not a `sparc_Cmp`; otherwise it succeeds with that operand as
`last_icci`. When the lookup fails, the driver never reaches the engine: nothing
is selected and nothing is committed. -/
theorem sched_block_resolve_fails_iff (g : ir_graph) (st : HazardState) (block branch : Nat)
    (h2 : 2 ≤ get_Block_n_cfg_outs g block)
    (hbranch : sched_block_branch g block = .ok branch) :
    (sched_block_resolve g st block = .error .assertion ↔
      (is_sparc_Bicc g branch = false ∨ get_irn_arity g branch ≠ 1 ∨
        ∃ c, (get_irn_in g branch)[0]? = some c ∧ is_sparc_Cmp g c = false)) ∧
    (¬(is_sparc_Bicc g branch = false ∨ get_irn_arity g branch ≠ 1 ∨
        ∃ c, (get_irn_in g branch)[0]? = some c ∧ is_sparc_Cmp g c = false) →
      ∃ c, get_irn_in g branch = [c] ∧
        sched_block_resolve g st block = .ok { st with last_icci := some c }) ∧
    (∀ e, sched_block_resolve g st block = .error e →
      ∀ (σ : Type) (E : list_sched σ) (es : σ) (fuel : Nat),
        (sched_block g E fuel st es block).status = .failed e ∧
        (sched_block g E fuel st es block).selected = [] ∧
        (sched_block g E fuel st es block).committed = [] ∧
        (sched_block g E fuel st es block).eng = es) := by
  have hres : sched_block_resolve g st block =
      if !is_sparc_Bicc g branch then .error .assertion
      else if get_irn_arity g branch != 1 then .error .assertion
      else
        match (get_irn_in g branch)[0]? with
        | none => .error .out_of_bounds
        | some icci =>
          if !is_sparc_Cmp g icci then .error .assertion
          else .ok { st with last_icci := some icci } := by
    unfold sched_block_resolve
    rw [if_pos h2, hbranch]
  refine ⟨?_, ?_, ?_⟩
  · rw [hres]
    cases hb : is_sparc_Bicc g branch with
    | false => simp
    | true =>
      cases hin : get_irn_in g branch with
      | nil => simp [get_irn_arity, hin]
      | cons c rest =>
        cases rest with
        | nil =>
          cases hc : is_sparc_Cmp g c <;> simp [get_irn_arity, hin, hc]
        | cons c2 rest => simp [get_irn_arity, hin]
  · intro hn
    rw [hres]
    cases hb : is_sparc_Bicc g branch with
    | false => exact absurd (Or.inl hb) hn
    | true =>
      cases hin : get_irn_in g branch with
      | nil => exact absurd (Or.inr (Or.inl (by simp [get_irn_arity, hin]))) hn
      | cons c rest =>
        cases rest with
        | nil =>
          cases hc : is_sparc_Cmp g c with
          | false => exact absurd (Or.inr (Or.inr ⟨c, by simp [hin], hc⟩)) hn
          | true => exact ⟨c, rfl, by simp [get_irn_arity, hin, hc]⟩
        | cons c2 rest => exact absurd (Or.inr (Or.inl (by simp [get_irn_arity, hin]))) hn
  · intro e he σ E es fuel
    have henter : sched_block_enter g E st es block =
        { status := .failed e, hz := st, eng := es, selected := [], committed := [] } := by
      unfold sched_block_enter
      rw [he]
    unfold sched_block
    rw [sched_block_iterate_failed g E fuel _ e (by rw [henter]), henter]
    exact ⟨rfl, rfl, rfl, rfl⟩

/-- C6 on the graph whose first successor is entered from a node that is not a
conditional branch: the lookup stops at the assertion and, whatever the fuel,
nothing is selected or committed. -/
theorem sched_block_resolve_fails_iff_witness :
    sched_block_resolve exBadGraph HazardState.init 10 = .error .assertion ∧
    (sched_block exBadGraph exEngine 5 HazardState.init [] 10).status = .failed .assertion ∧
    (sched_block exBadGraph exEngine 5 HazardState.init [] 10).selected = [] ∧
    (sched_block exBadGraph exEngine 5 HazardState.init [] 10).committed = [] :=
  have h := sched_block_resolve_fails_iff exBadGraph HazardState.init 10 21 (by decide) rfl
  have hfail : sched_block_resolve exBadGraph HazardState.init 10 = .error .assertion :=
    h.1.2 (Or.inl (by decide))
  have hrun := h.2.2 .assertion hfail (List Nat) exEngine [] 5
  ⟨hfail, hrun.1, hrun.2.1, hrun.2.2.1⟩

/-! ## Steps of the driver loop -/

theorem sched_block_step_cons {σ : Type} (g : ir_graph) (E : list_sched σ)
    (s : DriverState σ) (n : Nat) (rest : List Nat) (hs : s.status = .running)
    (hc : E.cands s.eng = n :: rest) :
    sched_block_step g E s =
      { status := .running,
        hz := { last_load := if is_sparc_Ld g n then some n else none
                last_icci := s.hz.last_icci
                last_muldiv := if _is_MulDiv g n then some n else none },
        eng := E.schedule s.eng n,
        selected := s.selected ++ [n], committed := s.committed ++ [n] } := by
  unfold sched_block_step
  rw [hs]
  simp only [hc, ir_nodeset_size, List.length_cons, sparc_select_cons]
  rw [if_pos (by omega)]

theorem sched_block_step_nil {σ : Type} (g : ir_graph) (E : list_sched σ)
    (s : DriverState σ) (hs : s.status = .running) (hc : E.cands s.eng = []) :
    sched_block_step g E s = { s with status := .finished, eng := E.end_block s.eng } := by
  unfold sched_block_step
  rw [hs]
  simp [hc, ir_nodeset_size]

theorem sched_block_step_stopped {σ : Type} (g : ir_graph) (E : list_sched σ)
    (s : DriverState σ) (hs : s.status ≠ .running) : sched_block_step g E s = s := by
  unfold sched_block_step
  cases h : s.status with
  | running => exact absurd h hs
  | finished => rfl
  | failed e => rfl

/-! ## Frame, idempotence and the branch check -/

/-- C11. Frame of the selector: on a non-empty ready set `sparc_select` keeps
`last_icci`, so the hazard state it leaves differs from the prior one in
`last_load` and `last_muldiv` only; the selector does not act on the engine, so
the loop step passes to `be_list_sched_schedule` the engine state (hence the
ready set) that the selector read. The three checks only read the hazard state
and return a flag: the state the selector leaves is the same whatever
`last_load` and `last_muldiv` held, hence whatever the checks returned. -/
theorem sparc_select_frame (g : ir_graph) (st : HazardState) (rs : List Nat)
    (hne : rs ≠ []) :
    ∃ n st1, sparc_select g st rs = some (n, st1) ∧
      st1.last_icci = st.last_icci ∧
      st1 = { st with last_load := st1.last_load, last_muldiv := st1.last_muldiv } ∧
      (∀ (σ : Type) (E : list_sched σ) (s : DriverState σ), s.status = .running →
        s.hz = st → E.cands s.eng = rs →
        (sched_block_step g E s).eng = E.schedule s.eng n ∧
        (sched_block_step g E s).hz = st1) ∧
      (∀ st2 : HazardState, st2.last_icci = st.last_icci →
        sparc_select g st2 rs = some (n, st1)) := by
  cases rs with
  | nil => exact absurd rfl hne
  | cons n rest =>
    refine ⟨n, _, sparc_select_cons g st n rest, rfl, rfl, ?_, ?_⟩
    · intro σ E s hs hst hc
      rw [sched_block_step_cons g E s n rest hs hc, hst]
      exact ⟨rfl, rfl⟩
    · intro st2 h2
      rw [sparc_select_cons, h2]

/-- C11 on the example block: selecting from `3, 4` with the load `1` and the
compare `6` recorded keeps `last_icci = 6`. -/
theorem sparc_select_frame_witness :
    ∃ n st1, sparc_select exGraph ⟨some 1, some 6, none⟩ [3, 4] = some (n, st1) ∧
      st1.last_icci = some 6 :=
  have ⟨n, st1, h, hi, _⟩ :=
    sparc_select_frame exGraph ⟨some 1, some 6, none⟩ [3, 4] (by decide)
  ⟨n, st1, h, hi⟩

/-- C15. Recording the selection of `I` twice in a row leaves the hazard state
that recording it once leaves; when `I` is neither a load nor a multiply/divide
variant, `last_load` and `last_muldiv` are both unset afterwards, whatever they
held before. -/
theorem sparc_select_record_idempotent (g : ir_graph) (st : HazardState) (I : Nat)
    (rest1 rest2 : List Nat) :
    ∃ st1, sparc_select g st (I :: rest1) = some (I, st1) ∧
      sparc_select g st1 (I :: rest2) = some (I, st1) ∧
      ((g.node I).op ≠ .sparc_Ld →
        ¬((g.node I).op = .sparc_SMul ∨ (g.node I).op = .sparc_SMulCCZero ∨
          (g.node I).op = .sparc_SMulh ∨ (g.node I).op = .sparc_UMulh ∨
          (g.node I).op = .sparc_SDiv ∨ (g.node I).op = .sparc_UDiv) →
        st1.last_load = none ∧ st1.last_muldiv = none) := by
  refine ⟨_, sparc_select_cons g st I rest1, sparc_select_cons g _ I rest2, ?_⟩
  intro hld hmd
  have hmd1 : _is_MulDiv g I = false := by
    rw [Bool.eq_false_iff]
    exact fun hc => hmd ((_is_MulDiv_iff g I).1 hc)
  simp [is_sparc_Ld, hld, hmd1]

/-- C15 on the example block: recording the add `4` with a load and a compare
recorded clears `last_load` and `last_muldiv`, and recording it again changes
nothing. -/
theorem sparc_select_record_idempotent_witness :
    ∃ st1, sparc_select exGraph ⟨some 1, some 6, none⟩ [4, 3] = some (4, st1) ∧
      sparc_select exGraph st1 [4] = some (4, st1) ∧
      st1.last_load = none ∧ st1.last_muldiv = none :=
  have ⟨st1, h1, h2, h3⟩ :=
    sparc_select_record_idempotent exGraph ⟨some 1, some 6, none⟩ 4 [3] []
  ⟨st1, h1, h2, h3 (by decide) (by decide)⟩

/-- C16. `check_branch I` is true exactly when `last_icci` is set and `I` is the
node it holds; two hazard states with the same `last_icci` give the same answer,
whatever `last_load` and `last_muldiv` hold, and the graph (the operands of `I`)
is not consulted. -/
theorem check_branch_iff (st : HazardState) (I : Nat) :
    (check_branch st I = true ↔ ∃ c, st.last_icci = some c ∧ I = c) ∧
    (st.last_icci = none → check_branch st I = false) ∧
    (∀ l1 m1 l2 m2 : Option Nat,
      check_branch ⟨l1, st.last_icci, m1⟩ I = check_branch ⟨l2, st.last_icci, m2⟩ I) := by
  refine ⟨?_, ?_, fun _ _ _ _ => rfl⟩
  · unfold check_branch
    constructor
    · intro h
      by_cases hc : some I = st.last_icci
      · exact ⟨I, hc.symm, rfl⟩
      · simp [hc] at h
    · rintro ⟨c, hc, rfl⟩
      simp [hc]
  · intro h
    simp [check_branch, h]

/-- C16 on the example block: with `last_icci = 6` the check is true of `6`. -/
theorem check_branch_iff_witness :
    check_branch ⟨some 1, some 6, none⟩ 6 = true ∧
    check_branch ⟨some 1, none, some 14⟩ 6 = false :=
  ⟨(check_branch_iff ⟨some 1, some 6, none⟩ 6).1.2 ⟨6, rfl, rfl⟩,
   (check_branch_iff ⟨some 1, none, some 14⟩ 6).2.1 rfl⟩

/-- C17 fails on `exCritGraph`. Block `10` has two successors and ends in the
branch `7` reading the compare `6`; its successor 0 is block `11`, whose first
incoming edge comes from block `30`. The lookup at the head of `sched_block`
for block `10` succeeds, but the branch it locates is `31`, a node of block
`30`, and `last_icci` becomes the compare `32` of that block: `check_branch` is
false of the compare `6` of block `10`. -/
theorem sched_block_resolve_own_branch_counterexample :
    2 ≤ get_Block_n_cfg_outs exCritGraph 10 ∧
    get_Block_cfg_out exCritGraph 10 0 = some 11 ∧
    get_irn_in exCritGraph 11 = [33, 8] ∧
    exCritGraph.nodes_block 33 = 30 ∧ exCritGraph.nodes_block 8 = 10 ∧
    sched_block_branch exCritGraph 10 = .ok 31 ∧
    exCritGraph.nodes_block 31 = 30 ∧
    exCritGraph.nodes_block 7 = 10 ∧ is_sparc_Bicc exCritGraph 7 = true ∧
    get_irn_in exCritGraph 7 = [6] ∧
    sched_block_resolve exCritGraph HazardState.init 10 = .ok ⟨none, some 32, none⟩ ∧
    check_branch ⟨none, some 32, none⟩ 6 = false ∧
    ¬ (∀ (g : ir_graph) (st st1 : HazardState) (B branch : Nat),
        2 ≤ get_Block_n_cfg_outs g B → sched_block_resolve g st B = .ok st1 →
        sched_block_branch g B = .ok branch → g.nodes_block branch = B) := by
  refine ⟨by decide, by decide, by decide, by decide, by decide, rfl, by decide, by decide,
    by decide, by decide, by decide, by decide, ?_⟩
  intro h
  have h1 := h exCritGraph HazardState.init ⟨none, some 32, none⟩ 10 31 (by decide)
    (by decide) rfl
  revert h1
  decide

/-! ## What the lookup and the loop do to the hazard variables -/

/-- A successful lookup keeps `last_load` and `last_muldiv`; the `last_icci` it
leaves is unset or a compare, and does not depend on the prior hazard state. -/
theorem sched_block_resolve_ok (g : ir_graph) (st st1 : HazardState) (block : Nat)
    (h : sched_block_resolve g st block = .ok st1) :
    st1.last_load = st.last_load ∧ st1.last_muldiv = st.last_muldiv ∧
    (st1.last_icci = none ∨ ∃ c, st1.last_icci = some c ∧ is_sparc_Cmp g c = true) ∧
    ∀ st2, sched_block_resolve g st2 block = .ok { st2 with last_icci := st1.last_icci } := by
  unfold sched_block_resolve at h ⊢
  by_cases h2 : get_Block_n_cfg_outs g block ≥ 2
  · simp only [if_pos h2] at h ⊢
    cases hb : sched_block_branch g block with
    | error e => simp [hb] at h
    | ok branch =>
      simp only [hb] at h ⊢
      cases hbi : is_sparc_Bicc g branch with
      | false => simp [hbi] at h
      | true =>
        by_cases har : get_irn_arity g branch = 1
        · cases hin : (get_irn_in g branch)[0]? with
          | none => simp [hbi, har, hin] at h
          | some icci =>
            cases hc : is_sparc_Cmp g icci with
            | false => simp [hbi, har, hin, hc] at h
            | true =>
              simp only [hbi, har, hin, hc, Bool.not_true, bne_self_eq_false,
                Bool.false_eq_true, if_false, Resolved.ok.injEq] at h ⊢
              subst h
              exact ⟨rfl, rfl, Or.inr ⟨icci, rfl, hc⟩, fun _ => rfl⟩
        · simp [hbi, har] at h
  · simp only [if_neg h2, Resolved.ok.injEq] at h ⊢
    subst h
    exact ⟨rfl, rfl, Or.inl rfl, fun _ => rfl⟩

/-- Entering a block keeps `last_load` and `last_muldiv`. -/
theorem sched_block_enter_hz {σ : Type} (g : ir_graph) (E : list_sched σ) (st : HazardState)
    (es : σ) (block : Nat) :
    (sched_block_enter g E st es block).hz.last_load = st.last_load ∧
    (sched_block_enter g E st es block).hz.last_muldiv = st.last_muldiv ∧
    (sched_block_enter g E st es block).selected = [] ∧
    (sched_block_enter g E st es block).committed = [] := by
  unfold sched_block_enter
  cases h : sched_block_resolve g st block with
  | ok st1 =>
    obtain ⟨h1, h2, -⟩ := sched_block_resolve_ok g st st1 block h
    exact ⟨h1, h2, rfl, rfl⟩
  | error e => exact ⟨rfl, rfl, rfl, rfl⟩

/-- The load check reads `last_load` only, the multiply/divide check reads
`last_muldiv` only. -/
theorem check_delay_congr (g : ir_graph) (st1 st2 : HazardState) (I : Nat) :
    (st1.last_load = st2.last_load → check_delay_load g st1 I = check_delay_load g st2 I) ∧
    (st1.last_muldiv = st2.last_muldiv →
      check_delay_muldiv g st1 I = check_delay_muldiv g st2 I) := by
  constructor
  · intro h
    unfold check_delay_load
    rw [h]
  · intro h
    unfold check_delay_muldiv
    rw [h]

/-- Once something has been selected in a block, `last_load` and `last_muldiv`
are determined by the node selected last. -/
theorem sched_block_iterate_last_selected {σ : Type} (g : ir_graph) (E : list_sched σ)
    (k : Nat) (s : DriverState σ) (hs : s.selected = []) :
    ∀ n, ((sched_block_step g E)^[k] s).selected.getLast? = some n →
      ((sched_block_step g E)^[k] s).hz.last_load = (if is_sparc_Ld g n then some n else none) ∧
      ((sched_block_step g E)^[k] s).hz.last_muldiv =
        (if _is_MulDiv g n then some n else none) := by
  induction k with
  | zero =>
    intro n hn
    simp [hs] at hn
  | succ k ih =>
    intro n hn
    rw [Function.iterate_succ_apply'] at hn ⊢
    generalize (sched_block_step g E)^[k] s = t at ih hn ⊢
    by_cases ht : t.status = .running
    · cases hc : E.cands t.eng with
      | nil =>
        rw [sched_block_step_nil g E t ht hc] at hn ⊢
        exact ih n hn
      | cons m rest =>
        rw [sched_block_step_cons g E t m rest ht hc] at hn ⊢
        have hmn : m = n := by simpa using hn
        subst hmn
        exact ⟨rfl, rfl⟩
    · rw [sched_block_step_stopped g E t ht] at hn ⊢
      exact ih n hn

/-- C14. Cross-block persistence: the part of `sched_block` that runs before the
first selection keeps `last_load` and `last_muldiv` as it found them and
recomputes `last_icci` only, so the load and multiply/divide checks give the
same answers on entry to the loop as at the end of the previous block; when the
previous block selected anything, these two variables are the ones recorded for
the node it selected last. -/
theorem sched_block_enter_persistence {σ : Type} (g : ir_graph) (E : list_sched σ)
    (st : HazardState) (es : σ) (block : Nat) :
    (sched_block_enter g E st es block).hz.last_load = st.last_load ∧
    (sched_block_enter g E st es block).hz.last_muldiv = st.last_muldiv ∧
    (sched_block_enter g E st es block).selected = [] ∧
    (∀ I, check_delay_load g (sched_block_enter g E st es block).hz I = check_delay_load g st I ∧
      check_delay_muldiv g (sched_block_enter g E st es block).hz I =
        check_delay_muldiv g st I) ∧
    (∀ st1, sched_block_resolve g st block = .ok st1 →
      ∀ st2, ∃ st3, sched_block_resolve g st2 block = .ok st3 ∧
        st3.last_icci = st1.last_icci) ∧
    (∀ (fuel0 : Nat) (st0 : HazardState) (es0 : σ) (block0 n : Nat),
      st = (sched_block g E fuel0 st0 es0 block0).hz →
      (sched_block g E fuel0 st0 es0 block0).selected.getLast? = some n →
      (sched_block_enter g E st es block).hz.last_load =
        (if is_sparc_Ld g n then some n else none) ∧
      (sched_block_enter g E st es block).hz.last_muldiv =
        (if _is_MulDiv g n then some n else none)) := by
  obtain ⟨hl, hm, hsel, -⟩ := sched_block_enter_hz g E st es block
  refine ⟨hl, hm, hsel, fun I => ?_, ?_, ?_⟩
  · exact ⟨(check_delay_congr g _ st I).1 hl, (check_delay_congr g _ st I).2 hm⟩
  · intro st1 h1 st2
    exact ⟨_, (sched_block_resolve_ok g st st1 block h1).2.2.2 st2, rfl⟩
  · intro fuel0 st0 es0 block0 n hst hn
    have h := sched_block_iterate_last_selected g E fuel0
      (sched_block_enter g E st0 es0 block0) (sched_block_enter_hz g E st0 es0 block0).2.2.1 n hn
    rw [hl, hm, hst]
    exact h

/-- C14 on the example routines: block `60` is scheduled to its end, the load
`62` being selected last; a block entered next starts with `last_load = 62`. -/
theorem sched_block_enter_persistence_witness :
    (sched_block exLoadGraph exFilterEngine 3 HazardState.init [] 60).selected.getLast? =
      some 62 ∧
    (sched_block_enter exLoadGraph exFilterEngine
      (sched_block exLoadGraph exFilterEngine 3 HazardState.init [] 60).hz [] 11).hz.last_load =
      (if is_sparc_Ld exLoadGraph 62 then some 62 else none) :=
  ⟨by decide,
   ((sched_block_enter_persistence exLoadGraph exFilterEngine
      (sched_block exLoadGraph exFilterEngine 3 HazardState.init [] 60).hz [] 11).2.2.2.2.2
      3 HazardState.init [] 60 62 rfl (by decide)).1⟩

/-- C18. Reachable-state invariant: after any sequence of successful lookups and
selections from the initial state, `last_load` is unset or a `sparc_Ld`,
`last_muldiv` is unset or one of the six multiply/divide opcodes, `last_icci` is
unset or a `sparc_Cmp`, `last_load` and `last_muldiv` are not both set, and
whichever of the two is set is the node selected most recently. -/
theorem hazard_trace_invariant (g : ir_graph) (events : List SchedEvent) (t : TraceState)
    (h : hazard_trace g events ⟨HazardState.init, none⟩ = some t) :
    (∀ l, t.hz.last_load = some l →
      (g.node l).op = .sparc_Ld ∧ t.last_selected = some l) ∧
    (∀ m, t.hz.last_muldiv = some m →
      ((g.node m).op = .sparc_SMul ∨ (g.node m).op = .sparc_SMulCCZero ∨
        (g.node m).op = .sparc_SMulh ∨ (g.node m).op = .sparc_UMulh ∨
        (g.node m).op = .sparc_SDiv ∨ (g.node m).op = .sparc_UDiv) ∧
      t.last_selected = some m) ∧
    (∀ c, t.hz.last_icci = some c → (g.node c).op = .sparc_Cmp) ∧
    (t.hz.last_load = none ∨ t.hz.last_muldiv = none) := by
  have key : ∀ (evs : List SchedEvent) (t0 t1 : TraceState),
      ((∀ l, t0.hz.last_load = some l →
          (g.node l).op = .sparc_Ld ∧ t0.last_selected = some l) ∧
        (∀ m, t0.hz.last_muldiv = some m → _is_MulDiv g m = true ∧ t0.last_selected = some m) ∧
        (∀ c, t0.hz.last_icci = some c → (g.node c).op = .sparc_Cmp) ∧
        (t0.hz.last_load = none ∨ t0.hz.last_muldiv = none)) →
      hazard_trace g evs t0 = some t1 →
      ((∀ l, t1.hz.last_load = some l →
          (g.node l).op = .sparc_Ld ∧ t1.last_selected = some l) ∧
        (∀ m, t1.hz.last_muldiv = some m → _is_MulDiv g m = true ∧ t1.last_selected = some m) ∧
        (∀ c, t1.hz.last_icci = some c → (g.node c).op = .sparc_Cmp) ∧
        (t1.hz.last_load = none ∨ t1.hz.last_muldiv = none)) := by
    intro evs
    induction evs with
    | nil =>
      intro t0 t1 hinv ht
      simp only [hazard_trace, Option.some.injEq] at ht
      subst ht
      exact hinv
    | cons e evs ih =>
      intro t0 t1 hinv ht
      simp only [hazard_trace] at ht
      cases hstep : hazard_trace_step g t0 e with
      | none => simp [hstep] at ht
      | some t2 =>
        simp only [hstep] at ht
        refine ih t2 t1 ?_ ht
        obtain ⟨il, im, ic, ix⟩ := hinv
        cases e with
        | resolve block =>
          simp only [hazard_trace_step] at hstep
          cases hr : sched_block_resolve g t0.hz block with
          | error err => simp [hr] at hstep
          | ok st1 =>
            simp only [hr, Option.some.injEq] at hstep
            subst hstep
            obtain ⟨hl, hm, hi, -⟩ := sched_block_resolve_ok g t0.hz st1 block hr
            refine ⟨fun l h1 => il l (hl ▸ h1), fun m h1 => im m (hm ▸ h1), ?_, ?_⟩
            · intro c hc
              rcases hi with hi | ⟨c1, hc1, hcmp⟩
              · simp only at hc
                rw [hi] at hc
                cases hc
              · simp only at hc
                rw [hc1] at hc
                cases hc
                simpa [is_sparc_Cmp] using hcmp
            · simpa [hl, hm] using ix
        | select rs =>
          simp only [hazard_trace_step] at hstep
          cases rs with
          | nil => simp [sparc_select_nil] at hstep
          | cons n rest =>
            simp only [sparc_select_cons, Option.some.injEq] at hstep
            subst hstep
            refine ⟨?_, ?_, ic, ?_⟩
            · intro l hl
              by_cases hld : is_sparc_Ld g n = true
              · simp only [hld, if_true, Option.some.injEq] at hl
                subst hl
                exact ⟨by simpa [is_sparc_Ld] using hld, rfl⟩
              · simp [hld] at hl
            · intro m hm
              by_cases hmd : _is_MulDiv g n = true
              · simp only [hmd, if_true, Option.some.injEq] at hm
                subst hm
                exact ⟨hmd, rfl⟩
              · simp [hmd] at hm
            · by_cases hld : is_sparc_Ld g n = true
              · right
                have hop : (g.node n).op = .sparc_Ld := by simpa [is_sparc_Ld] using hld
                have : _is_MulDiv g n = false := by
                  rw [Bool.eq_false_iff]
                  intro hc
                  have := (_is_MulDiv_iff g n).1 hc
                  rw [hop] at this
                  simp at this
                simp [this]
              · left
                simp [hld]
  have hfin := key events ⟨HazardState.init, none⟩ t
    ⟨fun l hl => by simp [HazardState.init] at hl,
     fun m hm => by simp [HazardState.init] at hm,
     fun c hc => by simp [HazardState.init] at hc,
     Or.inl rfl⟩ h
  obtain ⟨fl, fm, fc, fx⟩ := hfin
  exact ⟨fl, fun m hm => ⟨(_is_MulDiv_iff g m).1 (fm m hm).1, (fm m hm).2⟩, fc, fx⟩

/-- C18 on the example block: lookup for block `10`, then the load `1` is
selected, then the multiply `14`. -/
theorem hazard_trace_invariant_witness :
    hazard_trace exGraph [.resolve 10, .select [1, 14], .select [14]] ⟨HazardState.init, none⟩ =
      some ⟨⟨none, some 6, some 14⟩, some 14⟩ ∧
    (exGraph.node 14).op = .sparc_SMul ∧ (exGraph.node 6).op = .sparc_Cmp :=
  have h : hazard_trace exGraph [.resolve 10, .select [1, 14], .select [14]]
      ⟨HazardState.init, none⟩ = some ⟨⟨none, some 6, some 14⟩, some 14⟩ := by decide
  have hinv := hazard_trace_invariant exGraph _ _ h
  ⟨h, by decide, hinv.2.2.1 6 rfl⟩

/-! ## The session -/

/-- A block with fewer than two successors is entered without failure and its
driver never fails. -/
theorem sched_block_not_failed_of_lt {σ : Type} (g : ir_graph) (E : list_sched σ)
    (fuel : Nat) (st : HazardState) (es : σ) (block : Nat)
    (hlt : get_Block_n_cfg_outs g block < 2) :
    ∀ e, (sched_block g E fuel st es block).status ≠ .failed e := by
  unfold sched_block
  apply sched_block_iterate_not_failed
  intro e
  unfold sched_block_enter sched_block_resolve
  rw [if_neg (by omega)]
  simp

theorem sched_sparc_walk_not_failed {σ : Type} (g : ir_graph) (E : list_sched σ)
    (fuel : Nat) (blocks : List Nat)
    (hlt : ∀ b ∈ blocks, get_Block_n_cfg_outs g b < 2) (st : HazardState) (es : σ) :
    ∀ e, (sched_sparc_walk g E fuel blocks st es).status ≠ .failed e := by
  induction blocks generalizing st es with
  | nil =>
    intro e
    simp [sched_sparc_walk]
  | cons b rest ih =>
    intro e
    have hb := sched_block_not_failed_of_lt g E fuel st es b (hlt b (by simp))
    rw [sched_sparc_walk]
    split
    · exact ih (fun b1 h1 => hlt b1 (by simp [h1])) _ _ e
    · exact hb e

/-- With no fuel the session stops where the loop of the first block starts. -/
theorem sched_sparc_zero {σ : Type} (g : ir_graph) (S : be_list_sched σ) (b : Nat)
    (rest : List Nat) (st : HazardState) (es : σ) :
    sched_sparc g S 0 (b :: rest) st es =
      sched_block_enter g S.block_engine st (S.sched_begin es) b := by
  have hw : sched_sparc_walk g S.block_engine 0 (b :: rest) st (S.sched_begin es) =
      sched_block_enter g S.block_engine st (S.sched_begin es) b := by
    rw [sched_sparc_walk]
    have hne : (sched_block g S.block_engine 0 st (S.sched_begin es) b).status ≠ .finished := by
      unfold sched_block sched_block_enter
      simp only [Function.iterate_zero, id_eq]
      cases sched_block_resolve g st b <;> simp
    split
    · rename_i heq
      exact absurd heq hne
    · rfl
  unfold sched_sparc
  rw [hw]
  have hne : (sched_block_enter g S.block_engine st (S.sched_begin es) b).status ≠ .finished := by
    unfold sched_block_enter
    cases sched_block_resolve g st b <;> simp
  split
  · rename_i heq
    exact absurd heq hne
  · rfl

/-- C12 fails. No node of `exBadGraph` is a `sparc_Bicc`, its block `10` has two
control-flow successors, and the session over it stops at the assertion of the
lookup. -/
theorem sched_sparc_no_bicc_counterexample :
    (∀ n, is_sparc_Bicc exBadGraph n = false) ∧
    get_Block_n_cfg_outs exBadGraph 10 = 2 ∧
    sched_block_resolve exBadGraph HazardState.init 10 = .error .assertion ∧
    (sched_sparc exBadGraph exSession 5 [10] HazardState.init []).status =
      .failed .assertion := by
  refine ⟨?_, by decide, by decide, by decide⟩
  intro n
  simp only [is_sparc_Bicc, exBadGraph]
  split <;> rfl

/-- C12 as amended. For a routine in which every block has fewer than two
control-flow successors, the session schedules the blocks without any failure,
in particular without reaching the assertions of the lookup; whereas in a
routine without `sparc_Bicc` a block with two or more successors whose branch
node is found always stops the lookup at the assertion. -/
theorem sched_sparc_no_fatal {σ : Type} (g : ir_graph) (S : be_list_sched σ) (fuel : Nat)
    (blocks : List Nat) (st : HazardState) (es : σ)
    (hlt : ∀ b ∈ blocks, get_Block_n_cfg_outs g b < 2) :
    (∀ e, (sched_sparc g S fuel blocks st es).status ≠ .failed e) ∧
    (∀ b ∈ blocks, ∃ st1, sched_block_resolve g st b = .ok st1) ∧
    (∀ b branch, (∀ n, is_sparc_Bicc g n = false) → 2 ≤ get_Block_n_cfg_outs g b →
      sched_block_branch g b = .ok branch →
      sched_block_resolve g st b = .error .assertion) := by
  refine ⟨?_, ?_, ?_⟩
  · intro e
    have hw := sched_sparc_walk_not_failed g S.block_engine fuel blocks hlt st (S.sched_begin es)
    unfold sched_sparc
    split
    · exact hw e
    · exact hw e
  · intro b hb
    refine ⟨{ st with last_icci := none }, ?_⟩
    unfold sched_block_resolve
    rw [if_neg (by have := hlt b hb; omega)]
  · intro b branch hno h2 hbr
    unfold sched_block_resolve
    rw [if_pos h2, hbr]
    simp [hno branch]

/-- The amended C12 on the example graph: its blocks `11` and `12` have no
successor and the session over them does not fail. -/
theorem sched_sparc_no_fatal_witness :
    (∀ e, (sched_sparc exGraph exSession 4 [11, 12] HazardState.init []).status ≠ .failed e) ∧
    (sched_sparc exGraph exSession 4 [11, 12] HazardState.init []).status = .finished :=
  ⟨(sched_sparc_no_fatal exGraph exSession 4 [11, 12] HazardState.init []
      (by decide)).1,
   by decide⟩

/-- C13 fails. The session over `exLoadGraph` ends with `last_load = 62`, the
session over block `10` of `exGraph` ends with `last_icci = 6`; a session
started with the variables as the first one left them enters its first block,
before anything is selected, with `last_load = 62`. -/
theorem sched_sparc_session_isolation_counterexample :
    (sched_sparc exLoadGraph exSession 3 [60] HazardState.init []).status = .finished ∧
    (sched_sparc exLoadGraph exSession 3 [60] HazardState.init []).hz =
      ⟨some 62, none, none⟩ ∧
    (sched_sparc exGraph exSession 6 [10] HazardState.init []).status = .finished ∧
    (sched_sparc exGraph exSession 6 [10] HazardState.init []).hz = ⟨none, some 6, none⟩ ∧
    (sched_sparc exGraph exSession 0 [11]
      (sched_sparc exLoadGraph exSession 3 [60] HazardState.init []).hz []).status = .running ∧
    (sched_sparc exGraph exSession 0 [11]
      (sched_sparc exLoadGraph exSession 3 [60] HazardState.init []).hz []).selected = [] ∧
    (sched_sparc exGraph exSession 0 [11]
      (sched_sparc exLoadGraph exSession 3 [60] HazardState.init []).hz []).hz.last_load =
        some 62 ∧
    ¬ (∀ (g : ir_graph) (S : be_list_sched (List Nat)) (b : Nat) (rest : List Nat)
        (st : HazardState) (es : List Nat),
        (sched_sparc g S 0 (b :: rest) st es).hz.last_load = none ∧
        (sched_sparc g S 0 (b :: rest) st es).hz.last_muldiv = none) := by
  refine ⟨by decide, by decide, by decide, by decide, by decide, by decide, by decide, ?_⟩
  intro h
  have h1 := (h exGraph exSession 11 [] ⟨some 62, none, none⟩ []).1
  revert h1
  decide

/-- C13 as amended. `sched_sparc` does not reset the hazard variables: the first
block of a session is entered, before anything is selected, with `last_load`
and `last_muldiv` as they were when the session was called, and only
`last_icci` is recomputed, from the block alone; the three variables are all
unset there when the session is called with the initial values, as the first
session of a process is, and the block has fewer than two successors. -/
theorem sched_sparc_first_block_state {σ : Type} (g : ir_graph) (S : be_list_sched σ)
    (b : Nat) (rest : List Nat) (st : HazardState) (es : σ) :
    (sched_sparc g S 0 (b :: rest) st es).selected = [] ∧
    (sched_sparc g S 0 (b :: rest) st es).hz.last_load = st.last_load ∧
    (sched_sparc g S 0 (b :: rest) st es).hz.last_muldiv = st.last_muldiv ∧
    (∀ st1, sched_block_resolve g st b = .ok st1 →
      (sched_sparc g S 0 (b :: rest) st es).hz.last_icci = st1.last_icci ∧
      ∀ st2, (sched_sparc g S 0 (b :: rest) st2 es).hz.last_icci = st1.last_icci) ∧
    (st = HazardState.init → get_Block_n_cfg_outs g b < 2 →
      (sched_sparc g S 0 (b :: rest) st es).hz = HazardState.init) := by
  rw [sched_sparc_zero]
  obtain ⟨hl, hm, hsel, -⟩ := sched_block_enter_hz g S.block_engine st (S.sched_begin es) b
  refine ⟨hsel, hl, hm, ?_, ?_⟩
  · intro st1 h1
    constructor
    · unfold sched_block_enter
      rw [h1]
    · intro st2
      rw [sched_sparc_zero]
      unfold sched_block_enter
      rw [(sched_block_resolve_ok g st st1 b h1).2.2.2 st2]
  · intro hst hlt
    unfold sched_block_enter sched_block_resolve
    rw [if_neg (by omega), hst]
    rfl

/-- The amended C13 on the example graph: the first session of a process enters
block `11` with all three variables unset; a later session enters it with the
`last_load` the earlier one left. -/
theorem sched_sparc_first_block_state_witness :
    (sched_sparc exGraph exSession 0 [11] HazardState.init []).hz = HazardState.init ∧
    (sched_sparc exGraph exSession 0 [11] ⟨some 62, some 6, none⟩ []).hz.last_load = some 62 ∧
    (sched_sparc exGraph exSession 0 [11] ⟨some 62, some 6, none⟩ []).hz.last_icci = none :=
  ⟨(sched_sparc_first_block_state exGraph exSession 11 [] HazardState.init []).2.2.2.2 rfl
      (by decide),
   (sched_sparc_first_block_state exGraph exSession 11 [] ⟨some 62, some 6, none⟩ []).2.1,
   ((sched_sparc_first_block_state exGraph exSession 11 [] ⟨some 62, some 6, none⟩ []).2.2.2.1
      ⟨some 62, none, none⟩ (by decide)).1⟩

/-! ## Termination of the driver loop -/

/-- A driver that is not running stays where it is. -/
theorem sched_block_iterate_stopped {σ : Type} (g : ir_graph) (E : list_sched σ)
    (k : Nat) (s : DriverState σ) (hs : s.status ≠ .running) :
    (sched_block_step g E)^[k] s = s := by
  induction k with
  | zero => rfl
  | succ k ih => rw [Function.iterate_succ_apply', ih, sched_block_step_stopped g E s hs]

/-- Over an engine whose ready set lies within a finite set of pending nodes
from which every commit removes the committed node, a running driver finishes
after at most as many commits as there are pending nodes. -/
theorem sched_block_iterate_finishes {σ : Type} (g : ir_graph) (E : list_sched σ)
    (pending : σ → Finset Nat)
    (hcands : ∀ es n, n ∈ E.cands es → n ∈ pending es)
    (hsched : ∀ es n, n ∈ E.cands es → pending (E.schedule es n) ⊆ (pending es).erase n)
    (c : Nat) (s : DriverState σ) (hs : s.status = .running)
    (hc : (pending s.eng).card ≤ c) :
    ∃ k, k ≤ c ∧ ((sched_block_step g E)^[k + 1] s).status = .finished ∧
      ∀ j, j ≤ k → ((sched_block_step g E)^[j] s).status = .running := by
  induction c generalizing s with
  | zero =>
    have hempty : E.cands s.eng = [] := by
      cases hl : E.cands s.eng with
      | nil => rfl
      | cons n rest =>
        have hn : n ∈ pending s.eng := hcands s.eng n (by simp [hl])
        have : 0 < (pending s.eng).card := Finset.card_pos.2 ⟨n, hn⟩
        omega
    refine ⟨0, le_refl 0, ?_, ?_⟩
    · simp [sched_block_step_nil g E s hs hempty]
    · intro j hj
      have : j = 0 := by omega
      subst this
      simpa using hs
  | succ c ih =>
    cases hl : E.cands s.eng with
    | nil =>
      refine ⟨0, Nat.zero_le _, ?_, ?_⟩
      · simp [sched_block_step_nil g E s hs hl]
      · intro j hj
        have : j = 0 := by omega
        subst this
        simpa using hs
    | cons n rest =>
      have hn : n ∈ E.cands s.eng := by simp [hl]
      have hstep := sched_block_step_cons g E s n rest hs hl
      have hcard : (pending (sched_block_step g E s).eng).card ≤ c := by
        rw [hstep]
        have h1 := Finset.card_le_card (hsched s.eng n hn)
        have h2 := Finset.card_erase_of_mem (hcands s.eng n hn)
        have h3 : 0 < (pending s.eng).card := Finset.card_pos.2 ⟨n, hcands s.eng n hn⟩
        simp only at h1 ⊢
        omega
      have hrun : (sched_block_step g E s).status = .running := by rw [hstep]
      obtain ⟨k, hk, hfin, hbefore⟩ := ih (sched_block_step g E s) hrun hcard
      refine ⟨k + 1, by omega, ?_, ?_⟩
      · rw [Function.iterate_succ_apply]
        exact hfin
      · intro j hj
        cases j with
        | zero => simpa using hs
        | succ j =>
          rw [Function.iterate_succ_apply]
          exact hbefore j (by omega)

/-- While the loop runs over such an engine, the committed nodes are pairwise
distinct, none of them is pending any more, and they are the selected nodes. -/
theorem sched_block_iterate_committed {σ : Type} (g : ir_graph) (E : list_sched σ)
    (pending : σ → Finset Nat)
    (hcands : ∀ es n, n ∈ E.cands es → n ∈ pending es)
    (hsched : ∀ es n, n ∈ E.cands es → pending (E.schedule es n) ⊆ (pending es).erase n)
    (k : Nat) (s : DriverState σ) (hsel : s.selected = []) (hcom : s.committed = []) :
    ((sched_block_step g E)^[k] s).committed.Nodup ∧
    ((sched_block_step g E)^[k] s).selected = ((sched_block_step g E)^[k] s).committed ∧
    (((sched_block_step g E)^[k] s).status = .running →
      ∀ m ∈ ((sched_block_step g E)^[k] s).committed,
        m ∉ pending ((sched_block_step g E)^[k] s).eng) := by
  induction k with
  | zero => simp [hsel, hcom]
  | succ k ih =>
    rw [Function.iterate_succ_apply']
    generalize (sched_block_step g E)^[k] s = t at ih ⊢
    obtain ⟨hnd, heq, hpend⟩ := ih
    by_cases ht : t.status = .running
    · cases hl : E.cands t.eng with
      | nil =>
        rw [sched_block_step_nil g E t ht hl]
        exact ⟨hnd, heq, fun h => by simp at h⟩
      | cons n rest =>
        have hn : n ∈ E.cands t.eng := by simp [hl]
        rw [sched_block_step_cons g E t n rest ht hl]
        refine ⟨?_, by simp [heq], ?_⟩
        · simp only
          rw [List.nodup_append]
          refine ⟨hnd, List.nodup_singleton n, ?_⟩
          intro a ha hb
          have : a = n := by simpa using hb
          subst this
          exact hpend ht a ha (hcands t.eng a hn)
        · intro _ m hm hmp
          have hsub := hsched t.eng n hn hmp
          rw [Finset.mem_erase] at hsub
          simp only [List.mem_append, List.mem_singleton] at hm
          rcases hm with hm | hm
          · exact hpend ht m hm hsub.2
          · exact hsub.1 hm
    · rw [sched_block_step_stopped g E t ht]
      exact ⟨hnd, heq, hpend⟩

/-- C19. Block driver loop. Over an engine whose ready set always lies within a
finite set of not yet scheduled nodes, from which `be_list_sched_schedule(n)`
removes `n`, and for a block whose lookup succeeds: the loop of `sched_block`
terminates after at most as many commits as there are such nodes at the start;
the driver never fails, so the selector is never called on an empty ready set;
every step commits nothing or commits the first member of the ready set of that
moment; no node is committed twice; the selected nodes are the committed
nodes. -/
theorem sched_block_loop_terminates {σ : Type} (g : ir_graph) (E : list_sched σ)
    (pending : σ → Finset Nat)
    (hcands : ∀ es n, n ∈ E.cands es → n ∈ pending es)
    (hsched : ∀ es n, n ∈ E.cands es → pending (E.schedule es n) ⊆ (pending es).erase n)
    (st st1 : HazardState) (es : σ) (block : Nat)
    (hres : sched_block_resolve g st block = .ok st1) :
    (∃ k, k ≤ (pending (E.begin_block es block)).card ∧
      (∀ fuel, fuel ≤ k → (sched_block g E fuel st es block).status = .running) ∧
      (∀ fuel, k < fuel → (sched_block g E fuel st es block).status = .finished ∧
        (sched_block g E fuel st es block).committed =
          (sched_block g E (k + 1) st es block).committed)) ∧
    (∀ fuel,
      (∀ e, (sched_block g E fuel st es block).status ≠ .failed e) ∧
      (sched_block g E fuel st es block).committed.Nodup ∧
      (sched_block g E fuel st es block).selected = (sched_block g E fuel st es block).committed ∧
      (sched_block g E fuel st es block).selected.length =
        (sched_block g E fuel st es block).committed.length ∧
      ((sched_block g E (fuel + 1) st es block).committed =
          (sched_block g E fuel st es block).committed ∨
        ∃ n, n ∈ E.cands (sched_block g E fuel st es block).eng ∧
          ir_nodeset_first (E.cands (sched_block g E fuel st es block).eng) = some n ∧
          (sched_block g E (fuel + 1) st es block).committed =
            (sched_block g E fuel st es block).committed ++ [n])) := by
  have henter : sched_block_enter g E st es block =
      { status := .running, hz := st1, eng := E.begin_block es block,
        selected := [], committed := [] } := by
    unfold sched_block_enter
    rw [hres]
  have hrun0 : (sched_block_enter g E st es block).status = .running := by rw [henter]
  constructor
  · obtain ⟨k, hk, hfin, hbefore⟩ := sched_block_iterate_finishes g E pending hcands hsched
      (pending (E.begin_block es block)).card (sched_block_enter g E st es block) hrun0
      (by rw [henter])
    refine ⟨k, hk, fun fuel hf => hbefore fuel hf, fun fuel hf => ?_⟩
    obtain ⟨j, rfl⟩ : ∃ j, fuel = j + (k + 1) := ⟨fuel - (k + 1), by omega⟩
    have hstop : ((sched_block_step g E)^[k + 1] (sched_block_enter g E st es block)).status ≠
        .running := by
      rw [hfin]
      simp
    have heq : sched_block g E (j + (k + 1)) st es block = sched_block g E (k + 1) st es block := by
      unfold sched_block
      rw [Function.iterate_add_apply, sched_block_iterate_stopped g E j _ hstop]
    rw [heq]
    exact ⟨hfin, rfl⟩
  · intro fuel
    obtain ⟨hnd, heq, -⟩ := sched_block_iterate_committed g E pending hcands hsched fuel
      (sched_block_enter g E st es block) (by rw [henter]) (by rw [henter])
    refine ⟨?_, hnd, heq, by rw [show (sched_block g E fuel st es block).selected =
      (sched_block g E fuel st es block).committed from heq], ?_⟩
    · unfold sched_block
      apply sched_block_iterate_not_failed
      intro e
      rw [hrun0]
      simp
    · unfold sched_block
      rw [Function.iterate_succ_apply']
      generalize (sched_block_step g E)^[fuel] (sched_block_enter g E st es block) = t
      by_cases ht : t.status = .running
      · cases hl : E.cands t.eng with
        | nil =>
          left
          rw [sched_block_step_nil g E t ht hl]
        | cons n rest =>
          right
          refine ⟨n, by simp, rfl, ?_⟩
          rw [sched_block_step_cons g E t n rest ht hl]
      · left
        rw [sched_block_step_stopped g E t ht]

/-- C19 on the example block `10` over the filtering engine: the five pending
nodes are committed in five steps, each once, and the sixth guard evaluation
ends the loop. -/
theorem sched_block_loop_terminates_witness :
    (sched_block exGraph exFilterEngine 6 HazardState.init [] 10).status = .finished ∧
    (sched_block exGraph exFilterEngine 6 HazardState.init [] 10).committed = [1, 3, 4, 6, 7] ∧
    (sched_block exGraph exFilterEngine 6 HazardState.init [] 10).committed.Nodup ∧
    (sched_block exGraph exFilterEngine 6 HazardState.init [] 10).selected =
      (sched_block exGraph exFilterEngine 6 HazardState.init [] 10).committed :=
  have h := sched_block_loop_terminates exGraph exFilterEngine (fun es => es.toFinset)
    (fun es n hn => by simpa [exFilterEngine] using hn)
    (fun es n _ m hm => by
      simp only [exFilterEngine, List.mem_toFinset, List.mem_filter, bne_iff_ne, ne_eq] at hm
      simp only [Finset.mem_erase, List.mem_toFinset]
      exact ⟨hm.2, hm.1⟩)
    HazardState.init ⟨none, some 6, none⟩ [] 10 (by decide)
  ⟨by decide, by decide, (h.2 6).2.1, (h.2 6).2.2.1⟩

/-! ## The branch located by the lookup -/

/-- A successful lookup for a block with two or more successors has found a
`sparc_Bicc` whose only operand is a `sparc_Cmp`, and `last_icci` is that
operand. -/
theorem sched_block_resolve_ok_shape (g : ir_graph) (st st1 : HazardState) (block : Nat)
    (h2 : 2 ≤ get_Block_n_cfg_outs g block)
    (h : sched_block_resolve g st block = .ok st1) :
    ∃ branch cmp, sched_block_branch g block = .ok branch ∧
      is_sparc_Bicc g branch = true ∧ get_irn_in g branch = [cmp] ∧
      is_sparc_Cmp g cmp = true ∧ st1 = { st with last_icci := some cmp } := by
  unfold sched_block_resolve at h
  rw [if_pos h2] at h
  cases hb : sched_block_branch g block with
  | error e => simp [hb] at h
  | ok branch =>
    simp only [hb] at h
    cases hbi : is_sparc_Bicc g branch with
    | false => simp [hbi] at h
    | true =>
      cases hin : get_irn_in g branch with
      | nil => simp [hbi, get_irn_arity, hin] at h
      | cons c rest =>
        cases rest with
        | cons c2 rest => simp [hbi, get_irn_arity, hin] at h
        | nil =>
          cases hc : is_sparc_Cmp g c with
          | false => simp [hbi, get_irn_arity, hin, hc] at h
          | true =>
            simp only [hbi, get_irn_arity, hin, hc, List.length_singleton, Bool.not_true,
              bne_self_eq_false, Bool.false_eq_true, if_false, List.getElem?_cons_zero,
              Resolved.ok.injEq] at h
            exact ⟨branch, c, rfl, hbi, hin, hc, h.symm⟩

/-- C17 as amended. For a block `B` with at least two control-flow successors
whose lookup succeeds, and whose successor 0 has as first incoming edge a node
of `B` that lies in the block of its operands (an exit of the branch of `B`, no
edge from another block coming first), the branch the lookup locates is a
`sparc_Bicc` of `B` and `last_icci` is its only operand, a `sparc_Cmp`. -/
theorem sched_block_resolve_own_branch (g : ir_graph) (st st1 : HazardState)
    (B succ edge : Nat)
    (h2 : 2 ≤ get_Block_n_cfg_outs g B)
    (hres : sched_block_resolve g st B = .ok st1)
    (hsucc : get_Block_cfg_out g B 0 = some succ)
    (hedge : (get_irn_in g succ)[0]? = some edge)
    (hown : g.nodes_block edge = B)
    (hplace : ∀ q ∈ get_irn_in g edge, g.nodes_block q = g.nodes_block edge) :
    ∃ branch cmp, sched_block_branch g B = .ok branch ∧
      (get_irn_in g edge)[0]? = some branch ∧
      g.nodes_block branch = B ∧
      is_sparc_Bicc g branch = true ∧ get_irn_in g branch = [cmp] ∧
      is_sparc_Cmp g cmp = true ∧
      st1.last_icci = some cmp ∧ st1 = { st with last_icci := some cmp } := by
  obtain ⟨branch, cmp, hb, hbi, hin, hc, hst⟩ := sched_block_resolve_ok_shape g st st1 B h2 hres
  have hfirst : (get_irn_in g edge)[0]? = some branch := by
    unfold sched_block_branch at hb
    rw [hsucc] at hb
    simp only [hedge] at hb
    cases hq : (get_irn_in g edge)[0]? with
    | none => simp [hq] at hb
    | some q =>
      simp only [hq, Except.ok.injEq] at hb
      rw [hb]
  have hmem : branch ∈ get_irn_in g edge := List.getElem?_mem hfirst
  refine ⟨branch, cmp, hb, hfirst, ?_, hbi, hin, hc, ?_, hst⟩
  · rw [hplace branch hmem, hown]
  · rw [hst]

/-- The amended C17 on the example block `10`: the first incoming edge of its
successor `11` is the exit `8` of its own branch `7`, so the lookup locates `7`
and sets `last_icci` to the compare `6`. -/
theorem sched_block_resolve_own_branch_witness :
    ∃ branch cmp, sched_block_branch exGraph 10 = .ok branch ∧
      (get_irn_in exGraph 8)[0]? = some branch ∧
      exGraph.nodes_block branch = 10 ∧
      is_sparc_Bicc exGraph branch = true ∧ get_irn_in exGraph branch = [cmp] ∧
      is_sparc_Cmp exGraph cmp = true ∧
      (⟨none, some 6, none⟩ : HazardState).last_icci = some cmp ∧
      (⟨none, some 6, none⟩ : HazardState) =
        { HazardState.init with last_icci := some cmp } :=
  sched_block_resolve_own_branch exGraph HazardState.init ⟨none, some 6, none⟩ 10 11 8
    (by decide) (by decide) (by decide) (by decide) (by decide) (by decide)

end BeSchedSparc
